import Mathlib

/-!
Verification of the geviewer core against its specification.

This file gives a shallow embedding of the algorithmic core of the geviewer
repository — the mesh-buffer combiner, the VRML block and polyline parsers,
the HepRep cylinder builder and sibling-reduction pass, and the geometry
overlap detector — and proves the specified properties about the embedded
definitions.  Each embedded definition cites the source location it is
translated from.
-/

namespace GeViewer

/-- Runtime failures of the embedded Python code.  The first two constructors
name the error conditions described by the specification for the combiner
(`MalformedTopology`, `BufferLengthMismatch`); the remaining constructors
model exceptions the Python interpreter itself can raise (a `ValueError`
from concatenating an empty list of arrays, an `IndexError` from indexing
past the end of a list, and a `ZeroDivisionError`). -/
inductive PyError where
  | MalformedTopology
  | BufferLengthMismatch
  | concatEmpty
  | indexError
  | zeroDivision
  deriving DecidableEq

/-- Inclusive prefix sums, as computed by `np.cumsum` in
`Parser.combine_mesh_arrays` (parsers.py line 45). -/
def cumsumFrom (acc : Nat) : List Nat → List Nat
  | [] => []
  | x :: xs => (acc + x) :: cumsumFrom (acc + x) xs

/-- The per-item index offsets of `combine_mesh_arrays`:
`np.cumsum([0] + [len(p) for p in points[:-1]])` (parsers.py line 45). -/
def offsets {P : Type} (points : List (List P)) : List Nat :=
  cumsumFrom 0 (0 :: points.dropLast.map List.length)

/-- The record-aware index-offset walk of `combine_mesh_arrays`
(parsers.py lines 47-52): read the count `k = cell[j]`, add `off` to the
following `k` entries (silently truncating when fewer than `k` entries
remain, exactly as the Python slice assignment does), and continue at
`j + k + 1`.  The extra `Nat` argument is an upper bound on the number of
records that makes the recursion structural; it is always instantiated
with the buffer length, which suffices because each record consumes at
least one entry. -/
def offsetRecordsF (off : Nat) : Nat → List Nat → List Nat
  | _, [] => []
  | 0, l => l
  | fuel + 1, k :: rest =>
    k :: ((rest.take k).map (· + off) ++ offsetRecordsF off fuel (rest.drop k))

/-- The offset walk of `combine_mesh_arrays` on one topology buffer. -/
def offsetRecords (off : Nat) (cell : List Nat) : List Nat :=
  offsetRecordsF off cell.length cell

/-- Parse a topology buffer as count-prefixed records `[k, i0 .. i(k-1)]`,
returning `none` when the buffer length is inconsistent with the declared
record sizes.  This is the specification-side reading of the encoding that
`combine_mesh_arrays` walks; the extra `Nat` argument is fuel making the
recursion structural, always instantiated with the buffer length. -/
def parseRecordsF : Nat → List Nat → Option (List (Nat × List Nat))
  | _, [] => some []
  | 0, _ :: _ => none
  | fuel + 1, k :: rest =>
    if k ≤ rest.length then
      (parseRecordsF fuel (rest.drop k)).map (fun rs => (k, rest.take k) :: rs)
    else
      none

/-- Parse a topology buffer into its count-prefixed records. -/
def parseRecords (cell : List Nat) : Option (List (Nat × List Nat)) :=
  parseRecordsF cell.length cell

/-- A topology buffer is well formed for a point buffer of length `n` when
it parses into complete records whose indices are all below `n`. -/
def topologyOK (n : Nat) (cell : List Nat) : Bool :=
  match parseRecords cell with
  | some rs => rs.all (fun r => r.2.all (fun idx => idx < n))
  | none => false

/-- Number of count-prefixed records in a topology buffer (zero for a
buffer that does not parse). -/
def numRecords (cell : List Nat) : Nat :=
  ((parseRecords cell).getD []).length

/-- Result of `Parser.combine_mesh_arrays` (parsers.py lines 23-59).
Besides the three returned buffers, the `…Arg` fields record the final
contents of the three caller-supplied argument lists: the slice assignment
on line 51 writes the offset indices back into the caller's topology lists
in place, while lines 46 and 54 only rebind local names, so the caller's
points and colors lists are never written to. -/
structure CombineOut (P C : Type) where
  points : List P
  cells : List Nat
  colors : List C
  pointsArg : List (List P)
  cellsArg : List (List Nat)
  colorsArg : List (List C)
  deriving DecidableEq

/-- Embedding of `Parser.combine_mesh_arrays` (parsers.py lines 23-59).
Failure cases reproduce what the Python interpreter raises, in evaluation
order: `np.concatenate` on an empty `points` list raises a `ValueError`
(line 46); a topology list beyond the offset table raises an `IndexError`
when it is nonempty, since `offsets[i]` is evaluated only inside the walk
(line 51); `np.concatenate` on an empty `cells` or `colors` list raises a
`ValueError` (lines 53-54).  Topology entries are embedded as `Nat`:
every count and index this program stores is nonnegative. -/
def combine_mesh_arrays {P C : Type} (points : List (List P)) (cells : List (List Nat))
    (colors : List (List C)) : Except PyError (CombineOut P C) :=
  let offs := offsets points
  if points.isEmpty then
    .error .concatEmpty
  else if (cells.drop offs.length).any (fun c => !c.isEmpty) then
    .error .indexError
  else if cells.isEmpty then
    .error .concatEmpty
  else if colors.isEmpty then
    .error .concatEmpty
  else
    let adjusted := (cells.zip offs).map (fun pc => offsetRecords pc.2 pc.1)
    .ok { points := points.flatten, cells := adjusted.flatten, colors := colors.flatten,
          pointsArg := points, cellsArg := adjusted ++ cells.drop offs.length,
          colorsArg := colors }

/-- Property: a topology buffer's records survive the offset walk with the
count fields unchanged and every index shifted by `off`, and every shifted
index, after subtracting `off` again, is a valid index into a point buffer
of length `n`. -/
def shiftedOK (off n : Nat) (cell : List Nat) : Prop :=
  ∃ rs, parseRecords cell = some rs ∧
    parseRecords (offsetRecords off cell) =
      some (rs.map (fun r => (r.1, r.2.map (· + off)))) ∧
    ∀ r ∈ rs.map (fun r => (r.1, r.2.map (· + off))), ∀ j ∈ r.2,
      off ≤ j ∧ j - off < n

/-- The line-record build of `VRMLParser.process_polyline_block`
(parsers.py lines 273-278): for `i` in `0 .. len(indices) - 2`, emit the
2-index line record `[2, indices[i], indices[i+1]]` unless either entry is
the `-1` sentinel.  Index entries are embedded as `Int` because the
sentinel is negative. -/
def process_polyline_block : List Int → List Int
  | a :: b :: rest =>
    (if a ≠ -1 ∧ b ≠ -1 then [2, a, b] else []) ++ process_polyline_block (b :: rest)
  | _ => []

/-- Specification-side segmentation of a single polyline run: one
`[2, i, j]` record for each pair of consecutive indices of the run. -/
def segmentsOf (r : List Int) : List Int :=
  (r.zip r.tail).flatMap (fun p => [2, p.1, p.2])

/-- Abstraction of one line of a VRML file, carrying exactly the attributes
`VRMLParser.extract_blocks` inspects (parsers.py lines 225-247): whether the
stripped line starts with `Shape`, `Anchor` or `Viewpoint`; how many opening
and closing braces appear anywhere on the line; and whether the line
contains each of the four classifying substrings (`IndexedLineSet`,
`Sphere`, `IndexedFaceSet`, `Viewpoint`).  None of those substrings
contains a newline, so substring presence in the joined block text equals
presence on some line of the block. -/
structure VLine where
  keyword : Bool
  opens : Nat
  closes : Nat
  hasLineSet : Bool
  hasSphere : Bool
  hasFaceSet : Bool
  hasViewpoint : Bool
  deriving DecidableEq, Inhabited

/-- Kind assigned to a closed block by the classification chain of
`extract_blocks` (parsers.py lines 240-247). -/
inductive BKind where
  | track
  | marker
  | solid
  | view
  | junk
  deriving DecidableEq

/-- Block classification in the source's priority order: `IndexedLineSet`,
then `Sphere`, then `IndexedFaceSet`, then `Viewpoint`; anything else is
silently dropped (parsers.py lines 240-247). -/
def kindOf (b : List VLine) : BKind :=
  if b.any (·.hasLineSet) then .track
  else if b.any (·.hasSphere) then .marker
  else if b.any (·.hasFaceSet) then .solid
  else if b.any (·.hasViewpoint) then .view
  else .junk

/-- The four output slots of `extract_blocks`: the lists
`polyline_blocks`, `marker_blocks`, `solid_blocks` and the single
`viewpoint_block` (parsers.py lines 212-215). -/
structure ExtractOut where
  viewpoint : Option (List VLine)
  polylines : List (List VLine)
  markers : List (List VLine)
  solids : List (List VLine)
  deriving DecidableEq

/-- Filing of one closed block into the output slots (parsers.py
lines 240-247); a later viewpoint block overwrites an earlier one. -/
def classify (o : ExtractOut) (b : List VLine) : ExtractOut :=
  match kindOf b with
  | .track => { o with polylines := o.polylines ++ [b] }
  | .marker => { o with markers := o.markers ++ [b] }
  | .solid => { o with solids := o.solids ++ [b] }
  | .view => { o with viewpoint := some b }
  | .junk => o

/-- Loop state of `extract_blocks`: outputs, the accumulating `block`,
the `inside_block` flag and the running `brace_count`
(parsers.py lines 217-220). -/
structure ExtractState where
  out : ExtractOut
  block : List VLine
  inside : Bool
  depth : Int
  deriving DecidableEq

/-- One iteration of the line loop of `extract_blocks`
(parsers.py lines 225-250): a keyword line enters block mode and resets the
brace count; while inside, the line is accumulated and the brace count is
updated by `count of left braces - count of right braces`; when the count
returns to zero the accumulated block is classified and block mode ends. -/
def extract_step (st : ExtractState) (l : VLine) : ExtractState :=
  let st1 := if l.keyword then { st with inside := true, depth := 0 } else st
  if st1.inside then
    let st2 := { st1 with
                 block := st1.block ++ [l]
                 depth := st1.depth + (l.opens : Int) - (l.closes : Int) }
    if st2.depth = 0 then
      { st2 with out := classify st2.out st2.block, block := [], inside := false }
    else st2
  else st1

/-- Initial loop state of `extract_blocks` (parsers.py lines 212-220). -/
def initExtract : ExtractState :=
  { out := { viewpoint := none, polylines := [], markers := [], solids := [] },
    block := [], inside := false, depth := 0 }

/-- Embedding of `VRMLParser.extract_blocks` (parsers.py lines 195-256). -/
def extract_blocks (lines : List VLine) : ExtractState :=
  lines.foldl extract_step initExtract

/-- Net brace balance of a sequence of lines. -/
def blockDelta (b : List VLine) : Int :=
  (b.map (fun l => (l.opens : Int) - l.closes)).sum

/-- Well-formedness of one source-level block: nonempty, starting with a
keyword line, with no further keyword line, strictly positive brace balance
on every proper nonempty prefix, and balance zero over the whole block. -/
def WFBlock (b : List VLine) : Prop :=
  b ≠ [] ∧ (b.headD default).keyword = true ∧
  (∀ l ∈ b.tail, l.keyword = false) ∧
  (∀ k, k < b.length → 0 < k → 0 < blockDelta (b.take k)) ∧
  blockDelta b = 0

instance (b : List VLine) : Decidable (WFBlock b) := by
  unfold WFBlock
  infer_instance

/-- A well-formed VRML file at top level: gap lines, then a block, then gap
lines, and so on, ending with gap lines. -/
def interleave (gaps blocks : List (List VLine)) : List VLine :=
  match gaps, blocks with
  | g :: gs, b :: bs => g ++ b ++ interleave gs bs
  | g :: _, [] => g
  | [], _ => []

/-- Geometry points for the cylinder builder, embedded as exact rational
3-vectors. -/
abbrev Vec3 := ℚ × ℚ × ℚ

/-- Embedding of `create_cylinder_mesh` (parsers.py lines 735-802).  The
parameters `u` and `v` stand for the two basis vectors the source computes
with cross products and then normalises and scales to radius `r1`
(lines 759-769); `cossin i n` stands for `(cos(2*pi*i/n), sin(2*pi*i/n))`
(lines 773-775 and 781-783).  The floating-point normalisation and
trigonometry are abstracted as exact parameters; everything downstream of
them — the two rings of `num_segments` points, the rescaling of the basis
by `r2 / r1` for the second ring (lines 779-780), and the quadrilateral
side-face indices with wrap-around (lines 787-790) — is translated
directly.  The commented-out end-cap block (lines 792-800) emits nothing. -/
def create_cylinder_mesh (cossin : Nat → Nat → ℚ × ℚ) (p1 p2 u v : Vec3)
    (r1 r2 : ℚ) (num_segments : Nat := 20) : List Vec3 × List Nat :=
  let cap1 := (List.range num_segments).map
    (fun i => p1 + (cossin i num_segments).1 • u + (cossin i num_segments).2 • v)
  let u2 := (r2 / r1) • u
  let v2 := (r2 / r1) • v
  let cap2 := (List.range num_segments).map
    (fun i => p2 + (cossin i num_segments).1 • u2 + (cossin i num_segments).2 • v2)
  let indices := (List.range num_segments).flatMap
    (fun i => [4, i, (i + 1) % num_segments,
               (i + 1) % num_segments + num_segments, i + num_segments])
  (cap1 ++ cap2, indices)

/-- HepRep scene-graph node: the dictionary fields that `combine_dicts` and
`reduce_components` read and write (parsers.py lines 18-20, 682-732).  The
template's `id` (a fresh uuid) and the render-side fields (`points`,
`colors`, `mesh`, `actor`, `visible` as stored) play no role in the
reduction pass beyond being copied; `visible` and `is_dot` are carried as
data. -/
inductive HComp (Pt Cl : Type) : Type where
  | mk (name : String) (shape : String) (visible : Bool) (is_dot : Option Bool)
       (mesh_points : List (List Pt)) (mesh_inds : List (List Nat))
       (scalars : List (List Cl)) (children : List (HComp Pt Cl))

def HComp.name {Pt Cl : Type} : HComp Pt Cl → String
  | .mk n _ _ _ _ _ _ _ => n

def HComp.shape {Pt Cl : Type} : HComp Pt Cl → String
  | .mk _ s _ _ _ _ _ _ => s

def HComp.visible {Pt Cl : Type} : HComp Pt Cl → Bool
  | .mk _ _ v _ _ _ _ _ => v

def HComp.is_dot {Pt Cl : Type} : HComp Pt Cl → Option Bool
  | .mk _ _ _ d _ _ _ _ => d

def HComp.mesh_points {Pt Cl : Type} : HComp Pt Cl → List (List Pt)
  | .mk _ _ _ _ mp _ _ _ => mp

def HComp.mesh_inds {Pt Cl : Type} : HComp Pt Cl → List (List Nat)
  | .mk _ _ _ _ _ mi _ _ => mi

def HComp.scalars {Pt Cl : Type} : HComp Pt Cl → List (List Cl)
  | .mk _ _ _ _ _ _ sc _ => sc

def HComp.children {Pt Cl : Type} : HComp Pt Cl → List (HComp Pt Cl)
  | .mk _ _ _ _ _ _ _ ch => ch

/-- Exception-propagating list map, modelling a Python loop whose body may
raise. -/
def mapME {α β : Type} (f : α → Except PyError β) : List α → Except PyError (List β)
  | [] => .ok []
  | a :: t => do
    let b ← f a
    let bs ← mapME f t
    .ok (b :: bs)

/-- Embedding of Python `xs[0]`: the head of a list, or an `IndexError`. -/
def headOrErr {α : Type} : List α → Except PyError α
  | [] => .error .indexError
  | x :: _ => .ok x

/-- The first stage of `combine_dicts` (parsers.py lines 691-698): a
component whose own `mesh_points` holds more than one buffer gets its
buffers combined into one via `combine_mesh_arrays`; the companion
`mesh_inds` and `scalars` lists are read at indices `0 ..
len(mesh_points) - 1`, which raises an `IndexError` when either is
shorter. -/
def precombine {Pt Cl : Type} : HComp Pt Cl → Except PyError (HComp Pt Cl)
  | .mk n s vis dot mps mis scs ch =>
    if mps.length > 1 then
      if mis.length < mps.length ∨ scs.length < mps.length then
        .error .indexError
      else
        match combine_mesh_arrays mps (mis.take mps.length) (scs.take mps.length) with
        | .error e => .error e
        | .ok out => .ok (.mk n s vis dot [out.points] [out.cells] [out.colors] ch)
    else
      .ok (.mk n s vis dot mps mis scs ch)

/-- Embedding of `HepRepParser.combine_dicts` (parsers.py lines 682-711):
fewer than two dictionaries are returned as-is (`dicts[0]`, an `IndexError`
on the empty list); otherwise each dictionary's own buffers are first
combined (`precombine`), then the leading buffer of every dictionary is
combined across dictionaries, and the result keeps the first dictionary's
name, shape, visibility and dot flag and concatenates all children. -/
def combine_dicts {Pt Cl : Type} (ds : List (HComp Pt Cl)) :
    Except PyError (HComp Pt Cl) :=
  match ds with
  | [] => .error .indexError
  | [d] => .ok d
  | d :: rest => do
    let pre ← mapME precombine (d :: rest)
    let pts ← mapME (fun c => headOrErr c.mesh_points) pre
    let inds ← mapME (fun c => headOrErr c.mesh_inds) pre
    let scs ← mapME (fun c => headOrErr c.scalars) pre
    let out ← combine_mesh_arrays pts inds scs
    .ok (.mk d.name d.shape d.visible d.is_dot [out.points] [out.cells]
      [out.colors] (pre.flatMap (fun c => c.children)))

/-- The duplicate-name collection of `reduce_components` (parsers.py
lines 717-720): child names in first-appearance order, without
duplicates. -/
def collectNames {Pt Cl : Type} (children : List (HComp Pt Cl)) : List String :=
  children.foldl (fun ns c => if c.name ∈ ns then ns else ns ++ [c.name]) []

/-- The grouping body of `reduce_components` at one parent (parsers.py
lines 721-728): for each collected name, the children with that name are
combined when there is more than one, and passed through unchanged when
there is exactly one. -/
def reduce_children {Pt Cl : Type} (children : List (HComp Pt Cl)) :
    Except PyError (List (HComp Pt Cl)) :=
  mapME (fun nm =>
    let g := children.filter (fun c => decide (c.name = nm))
    if g.length > 1 then combine_dicts g else headOrErr g)
    (collectNames children)

/-- One parent step of `HepRepParser.reduce_components` (parsers.py
lines 714-729): the grouping pass runs only when the parent has more than
one child. -/
def reduce_components_step {Pt Cl : Type} (children : List (HComp Pt Cl)) :
    Except PyError (List (HComp Pt Cl)) :=
  if children.length > 1 then reduce_children children else .ok children

/-- Closed form of a successful `precombine`: within-component buffers
combined into one (the offset walk applied per buffer, everything
concatenated), other fields untouched.  Components with at most one buffer
pass through unchanged. -/
def precombined {Pt Cl : Type} : HComp Pt Cl → HComp Pt Cl
  | .mk n s vis dot mps mis scs ch =>
    if mps.length > 1 then
      .mk n s vis dot [mps.flatten]
        [((mis.zip (offsets mps)).map (fun pc => offsetRecords pc.2 pc.1)).flatten]
        [scs.flatten] ch
    else .mk n s vis dot mps mis scs ch

/-- Well-formedness of one component for the reduction pass: at least one
point buffer, companion lists of matching length, and well-formed topology
buffers. -/
def goodComp {Pt Cl : Type} (m : HComp Pt Cl) : Prop :=
  m.mesh_points ≠ [] ∧ m.mesh_inds.length = m.mesh_points.length ∧
  m.scalars.length = m.mesh_points.length ∧
  ∀ i, i < m.mesh_points.length →
    topologyOK ((m.mesh_points.getD i []).length) (m.mesh_inds.getD i []) = true

instance {Pt Cl : Type} [DecidableEq Pt] (m : HComp Pt Cl) :
    Decidable (goodComp m) := by
  unfold goodComp
  exact instDecidableAnd

/-- A concrete two-point, one-record HepRep component used to instantiate
the reduction theorem. -/
def sampleHComp : HComp Nat Nat :=
  .mk "A" "Prism" true none [[1, 2]] [[2, 0, 1]] [[7, 7]] []

/-- Total number of points over all of a component's buffers. -/
def pointsTotal {Pt Cl : Type} (m : HComp Pt Cl) : Nat :=
  (m.mesh_points.map List.length).sum

/-- Total number of topology records over all of a component's buffers. -/
def recordsTotal {Pt Cl : Type} (m : HComp Pt Cl) : Nat :=
  (m.mesh_inds.map numRecords).sum

/-- Axis-aligned bounds of a mesh as pyvista reports them:
`(xmin, xmax, ymin, ymax, zmin, zmax)`, embedded as exact rationals. -/
structure Bounds where
  xmin : ℚ
  xmax : ℚ
  ymin : ℚ
  ymax : ℚ
  zmin : ℚ
  zmax : ℚ
  deriving DecidableEq

/-- Embedding of `GeViewer.is_mesh_inside` (viewer.py lines 304-320): true
when the first mesh's bounding box is contained in the second's. -/
def is_mesh_inside (b1 b2 : Bounds) : Bool :=
  decide (b2.xmin ≤ b1.xmin) && decide (b1.xmax ≤ b2.xmax) &&
  decide (b2.ymin ≤ b1.ymin) && decide (b1.ymax ≤ b2.ymax) &&
  decide (b2.zmin ≤ b1.zmin) && decide (b1.zmax ≤ b2.zmax)

/-- Embedding of `GeViewer.do_bounds_overlap` (viewer.py lines 323-339):
false exactly when the boxes are separated along some axis. -/
def do_bounds_overlap (b1 b2 : Bounds) : Bool :=
  !(decide (b2.xmax ≤ b1.xmin) || decide (b1.xmax ≤ b2.xmin) ||
    decide (b2.ymax ≤ b1.ymin) || decide (b1.ymax ≤ b2.ymin) ||
    decide (b2.zmax ≤ b1.zmin) || decide (b1.zmax ≤ b2.zmin))

/-- Geometry oracle abstracting the pyvista operations the overlap detector
invokes on opaque mesh handles of type `M`: the all-triangles test and
triangulation, bounding boxes, open-edge counts, the uniform random sample
drawn inside the first mesh's bounding box for one `get_overlap` call
(viewer.py lines 356-358; the process-global random source is abstracted),
the enclosed-point test (`select_enclosed_points`, lines 361 and 366), and
the implicit-distance filter
`|implicit_distance(p, m)| > tolerance * ||diag(bounds m)||`
(lines 369-372) with the tolerance baked in.  The floating-point geometry
behind these calls is abstracted; the detector's control flow over them is
embedded exactly. -/
structure GeoOracle (M Pt : Type) where
  isAllTriangles : M → Bool
  triangulate : M → M
  bounds : M → Bounds
  nOpenEdges : M → Nat
  samples : M → M → List Pt
  enclosed : Pt → M → Bool
  distOK : Pt → M → Bool

/-- `mesh.triangulate()` guarded by `is_all_triangles`
(viewer.py lines 427-430). -/
def tri {M Pt : Type} (O : GeoOracle M Pt) (m : M) : M :=
  if O.isAllTriangles m then m else O.triangulate m

/-- Embedding of `GeViewer.get_overlap` (viewer.py lines 342-377): sample
points in the first mesh's box, keep those enclosed by the first mesh
(`n_surviving` of them), of those keep the ones enclosed by the second
mesh, of those keep the ones far enough from the second mesh's surface,
and return the surviving points together with their count divided by
`n_surviving`.  The division on line 375 is unguarded: when `n_surviving`
is zero the interpreter raises a `ZeroDivisionError`. -/
def get_overlap {M Pt : Type} (O : GeoOracle M Pt) (m1 m2 : M) :
    Except PyError (List Pt × ℚ) :=
  let pts1 := (O.samples m1 m2).filter (fun p => O.enclosed p m1)
  let nSurv := pts1.length
  let pts2 := pts1.filter (fun p => O.enclosed p m2)
  let pts3 := pts2.filter (fun p => O.distOK p m2)
  if nSurv = 0 then .error .zeroDivision
  else .ok (pts3, (pts3.length : ℚ) / (nSurv : ℚ))

/-- Console output of the detector, as structured messages: the
`unable to check` warning, the `-> X has N open edges` line, and the
`may overlap ... percent` report (viewer.py lines 438-442 and 453-454). -/
inductive Msg where
  | unableToCheck (name1 name2 : String)
  | openEdges (name : String) (count : Nat)
  | overlapWarning (name1 name2 : String) (percent : ℚ)
  deriving DecidableEq

/-- Mutable state threaded through `find_overlaps`: the `checked` id list,
the `overlapping_meshes` id list, the witness point-clouds added to the
plotter (`self.overlaps`), and the console log. -/
structure DetectorState (Pt : Type) where
  checked : List Nat
  overlapping : List Nat
  witnesses : List (List Pt)
  log : List Msg
  deriving DecidableEq

/-- Scene component as the detector sees it: id, name, shape string,
optional mesh handle, children (viewer.py lines 405-456; ids are embedded
as `Nat`). -/
inductive Component (M : Type) : Type where
  | mk (id : Nat) (name : String) (shape : String) (mesh : Option M)
       (children : List (Component M))

def Component.id {M : Type} : Component M → Nat
  | .mk i _ _ _ _ => i

def Component.name {M : Type} : Component M → String
  | .mk _ n _ _ _ => n

def Component.shape {M : Type} : Component M → String
  | .mk _ _ s _ _ => s

def Component.mesh {M : Type} : Component M → Option M
  | .mk _ _ _ m _ => m

def Component.children {M : Type} : Component M → List (Component M)
  | .mk _ _ _ _ ch => ch

/-- The eligibility test repeated on viewer.py lines 406 and 423: a
component participates only if it has a mesh and its shape is neither
`Point` nor `Line`. -/
def eligible {M : Type} (c : Component M) : Bool :=
  c.mesh.isSome && !(c.shape == "Point" || c.shape == "Line")

/-- The body of the pairwise test of `check_for_overlaps`
(viewer.py lines 425-454), run when the eligibility guard on lines 423-424
holds: triangulate as needed, skip if either box contains the other, skip
if the boxes do not overlap, skip with a warning if either mesh has open
edges, otherwise sample and flag both ids when the filtered point count
exceeds `n_samples * tolerance`, storing the witness cloud and reporting
the percentage. -/
def pairBody {M Pt : Type} (O : GeoOracle M Pt) (tolerance : ℚ)
    (n_samples : Nat) (comp1 comp2 : Component M) (st : DetectorState Pt) :
    Except PyError (DetectorState Pt) :=
  match comp1.mesh, comp2.mesh with
  | some m1₀, some m2₀ =>
    let m1 := tri O m1₀
    let m2 := tri O m2₀
    if is_mesh_inside (O.bounds m1) (O.bounds m2) then .ok st
    else if is_mesh_inside (O.bounds m2) (O.bounds m1) then .ok st
    else if !(do_bounds_overlap (O.bounds m1) (O.bounds m2)) then .ok st
    else if O.nOpenEdges m1 + O.nOpenEdges m2 > 0 then
      .ok { st with log := st.log ++
        [Msg.unableToCheck comp1.name comp2.name,
         if O.nOpenEdges m1 > 0 then Msg.openEdges comp1.name (O.nOpenEdges m1)
         else Msg.openEdges comp2.name (O.nOpenEdges m2)] }
    else do
      let pf ← get_overlap O m1 m2
      let threshold : ℚ := n_samples * tolerance
      if (pf.1.length : ℚ) > threshold then
        .ok { st with
              overlapping := st.overlapping ++ [comp1.id, comp2.id]
              witnesses := st.witnesses ++ [pf.1]
              log := st.log ++
                [Msg.overlapWarning comp1.name comp2.name (100 * pf.2)] }
      else .ok st
  | _, _ => .ok st

/-- Embedding of the inner `check_for_overlaps` (viewer.py lines 414-456):
compare `comp1` against every component of the list (the pair body runs
only for eligible partners with a different id that are not yet fully
checked), recursing into each partner's children. -/
def check_for_overlaps {M Pt : Type} (O : GeoOracle M Pt) (tolerance : ℚ)
    (n_samples : Nat) (comp1 : Component M) :
    List (Component M) → DetectorState Pt → Except PyError (DetectorState Pt)
  | [], st => .ok st
  | comp2 :: restc, st => do
    let st1 ←
      if eligible comp2 && comp1.id != comp2.id &&
          !(st.checked.contains comp2.id) then
        pairBody O tolerance n_samples comp1 comp2 st
      else .ok st
    let st2 ←
      if comp2.children.isEmpty then .ok st1
      else check_for_overlaps O tolerance n_samples comp1 comp2.children st1
    check_for_overlaps O tolerance n_samples comp1 restc st2
  termination_by l _ => sizeOf l
  decreasing_by
  all_goals
    cases comp2 with
    | mk i nm sh me ch => simp [Component.children] <;> omega

/-- Embedding of the inner `find_overlaps_recursive`
(viewer.py lines 397-412): each eligible component of the current group is
compared against the whole group, children are recursed into, the id is
appended to `checked`, and at recursion level 0 the loop breaks after the
first component. -/
def find_overlaps_recursive {M Pt : Type} (O : GeoOracle M Pt)
    (tolerance : ℚ) (n_samples : Nat) :
    List (Component M) → List (Component M) → Nat → DetectorState Pt →
    Except PyError (DetectorState Pt)
  | _, [], _, st => .ok st
  | full, comp :: restc, level, st => do
    let st1 ←
      if eligible comp then
        check_for_overlaps O tolerance n_samples comp full st
      else .ok st
    let st2 ←
      if comp.children.isEmpty then .ok st1
      else
        find_overlaps_recursive O tolerance n_samples comp.children
          comp.children (level + 1) st1
    let st3 := { st2 with checked := st2.checked ++ [comp.id] }
    if level = 0 then .ok st3
    else find_overlaps_recursive O tolerance n_samples full restc level st3
  termination_by _ l _ _ => sizeOf l
  decreasing_by
  all_goals
    cases comp with
    | mk i nm sh me ch => simp [Component.children] <;> omega

/-- Insertion into a sorted list of ids. -/
def insertSorted (x : Nat) : List Nat → List Nat
  | [] => [x]
  | y :: ys => if x ≤ y then x :: y :: ys else y :: insertSorted x ys

/-- Insertion sort of ids. -/
def sortNat (l : List Nat) : List Nat :=
  l.foldr insertSorted []

/-- `np.unique` on an id list (viewer.py line 459): sorted distinct
values. -/
def uniqueSorted (l : List Nat) : List Nat :=
  (sortNat l).dedup

/-- Embedding of `GeViewer.find_overlaps` (viewer.py lines 380-459): reset
the witness list, run the recursive sweep from an empty state over the
component forest, and return `np.unique` of the flagged ids (together with
the final state, observable through `self.overlaps` and the console). -/
def find_overlaps {M Pt : Type} (O : GeoOracle M Pt) (tolerance : ℚ)
    (n_samples : Nat) (components : List (Component M)) :
    Except PyError (List Nat × DetectorState Pt) := do
  let st ← find_overlaps_recursive O tolerance n_samples components
    components 0 { checked := [], overlapping := [], witnesses := [], log := [] }
  .ok (uniqueSorted st.overlapping, st)

/-- A concrete oracle over `Nat` mesh handles in which every mesh has three
open edges, the boxes of meshes 1 and 2 overlap without either containing
the other, and no sample point is enclosed by anything. -/
def openOracle : GeoOracle Nat Nat :=
  { isAllTriangles := fun _ => true
    triangulate := fun m => m
    bounds := fun m => if m = 1 then ⟨0, 2, 0, 1, 0, 1⟩ else ⟨1, 3, 0, 1, 0, 1⟩
    nOpenEdges := fun _ => 3
    samples := fun _ _ => [0]
    enclosed := fun _ _ => false
    distOK := fun _ _ => true }

/-- A concrete oracle over `Nat` mesh handles with closed meshes, the same
overlapping-but-not-nested boxes, three sample points all enclosed by
everything and all passing the distance filter. -/
def fullOracle : GeoOracle Nat Nat :=
  { isAllTriangles := fun _ => true
    triangulate := fun m => m
    bounds := fun m => if m = 1 then ⟨0, 2, 0, 1, 0, 1⟩ else ⟨1, 3, 0, 1, 0, 1⟩
    nOpenEdges := fun _ => 0
    samples := fun _ _ => [0, 1, 2]
    enclosed := fun _ _ => true
    distOK := fun _ _ => true }

/-- Two concrete eligible components with meshes 1 and 2. -/
def compA : Component Nat := .mk 1 "A" "Prism" (some 1) []

def compB : Component Nat := .mk 2 "B" "Prism" (some 2) []

theorem offsetRecordsF_nil (off f : Nat) : offsetRecordsF off f [] = [] := by
  cases f <;> rfl

theorem offsetRecordsF_fuel {off : Nat} :
    ∀ (f₁ f₂ : Nat) (l : List Nat), l.length ≤ f₁ → l.length ≤ f₂ →
      offsetRecordsF off f₁ l = offsetRecordsF off f₂ l := by
  intro f₁
  induction f₁ with
  | zero =>
    intro f₂ l h₁ _
    have : l = [] := List.length_eq_zero.mp (Nat.le_zero.mp h₁)
    subst this
    rw [offsetRecordsF_nil, offsetRecordsF_nil]
  | succ f ih =>
    intro f₂ l h₁ h₂
    cases l with
    | nil => rw [offsetRecordsF_nil, offsetRecordsF_nil]
    | cons k rest =>
      cases f₂ with
      | zero => exact absurd h₂ (by simp)
      | succ g =>
        simp only [offsetRecordsF]
        have hdf : (rest.drop k).length ≤ f := by
          simp only [List.length_drop]
          simp only [List.length_cons] at h₁
          omega
        have hdg : (rest.drop k).length ≤ g := by
          simp only [List.length_drop]
          simp only [List.length_cons] at h₂
          omega
        rw [ih g (rest.drop k) hdf hdg]

/-- Unfolding equation for `offsetRecords` on a nonempty buffer. -/
theorem offsetRecords_cons (off k : Nat) (rest : List Nat) :
    offsetRecords off (k :: rest) =
      k :: ((rest.take k).map (· + off) ++ offsetRecords off (rest.drop k)) := by
  simp only [offsetRecords, List.length_cons, offsetRecordsF]
  rw [offsetRecordsF_fuel rest.length (rest.drop k).length _ (by simp) (le_refl _)]

theorem parseRecordsF_nil (f : Nat) : parseRecordsF f [] = some [] := by
  cases f <;> rfl

theorem parseRecordsF_fuel :
    ∀ (f₁ f₂ : Nat) (l : List Nat), l.length ≤ f₁ → l.length ≤ f₂ →
      parseRecordsF f₁ l = parseRecordsF f₂ l := by
  intro f₁
  induction f₁ with
  | zero =>
    intro f₂ l h₁ _
    have : l = [] := List.length_eq_zero.mp (Nat.le_zero.mp h₁)
    subst this
    rw [parseRecordsF_nil, parseRecordsF_nil]
  | succ f ih =>
    intro f₂ l h₁ h₂
    cases l with
    | nil => rw [parseRecordsF_nil, parseRecordsF_nil]
    | cons k rest =>
      cases f₂ with
      | zero => exact absurd h₂ (by simp)
      | succ g =>
        simp only [parseRecordsF]
        have hdf : (rest.drop k).length ≤ f := by
          simp only [List.length_drop]
          simp only [List.length_cons] at h₁
          omega
        have hdg : (rest.drop k).length ≤ g := by
          simp only [List.length_drop]
          simp only [List.length_cons] at h₂
          omega
        rw [ih g (rest.drop k) hdf hdg]

/-- Unfolding equation for `parseRecords` on a nonempty buffer. -/
theorem parseRecords_cons (k : Nat) (rest : List Nat) :
    parseRecords (k :: rest) =
      if k ≤ rest.length then
        (parseRecords (rest.drop k)).map (fun rs => (k, rest.take k) :: rs)
      else none := by
  simp only [parseRecords, List.length_cons, parseRecordsF]
  rw [parseRecordsF_fuel rest.length (rest.drop k).length _ (by simp) (le_refl _)]

theorem cumsumFrom_length (a : Nat) (l : List Nat) :
    (cumsumFrom a l).length = l.length := by
  induction l generalizing a with
  | nil => rfl
  | cons x xs ih => simp [cumsumFrom, ih]

theorem cumsumFrom_map_range (l : List Nat) :
    ∀ a, cumsumFrom a l =
      (List.range l.length).map (fun i => a + (l.take (i + 1)).sum) := by
  induction l with
  | nil => intro a; rfl
  | cons x xs ih =>
    intro a
    simp only [cumsumFrom, ih (a + x), List.length_cons, List.range_succ_eq_map,
      List.map_cons, List.map_map]
    refine congrArg₂ List.cons (by simp) ?_
    refine List.map_congr_left ?_
    intro i _
    simp [List.take_succ_cons, Nat.add_assoc]

theorem offsets_length {P : Type} (points : List (List P)) (h : points ≠ []) :
    (offsets points).length = points.length := by
  simp only [offsets, cumsumFrom_length, List.length_cons, List.length_map,
    List.length_dropLast]
  have := List.length_pos.mpr h
  omega

/-- The offsets computed by `combine_mesh_arrays` are the exclusive prefix
sums of the point-buffer lengths. -/
theorem offsets_eq {P : Type} (points : List (List P)) (h : points ≠ []) :
    offsets points =
      (List.range points.length).map
        (fun i => ((points.take i).map List.length).sum) := by
  have hlen : points.dropLast.length = points.length - 1 := List.length_dropLast points
  have hpos : 0 < points.length := List.length_pos.mpr h
  simp only [offsets, cumsumFrom, Nat.add_zero, cumsumFrom_map_range, List.length_map,
    List.map_map]
  have hrange : List.range points.length =
      0 :: (List.range (points.dropLast.length)).map Nat.succ := by
    rw [hlen]
    have h1 : points.length = (points.length - 1) + 1 := by omega
    rw [h1, List.range_succ_eq_map]
    simp
  rw [hrange, List.map_cons, List.map_map]
  refine congrArg₂ List.cons (by simp) ?_
  refine List.map_congr_left ?_
  intro i hi
  rw [List.mem_range, hlen] at hi
  simp only [Function.comp]
  have htake : (points.dropLast.map List.length).take (i + 1) =
      (points.take (i + 1)).map List.length := by
    rw [← List.map_take]
    congr 1
    rw [List.dropLast_eq_take, List.take_take]
    congr 1
    omega
  rw [htake]
  simp

theorem offsetRecords_nil (off : Nat) : offsetRecords off [] = [] := rfl

theorem offsetRecords_length (off : Nat) :
    ∀ (c : List Nat), (offsetRecords off c).length = c.length := by
  have key : ∀ (n : Nat) (c : List Nat), c.length ≤ n →
      (offsetRecords off c).length = c.length := by
    intro n
    induction n with
    | zero =>
      intro c hc
      have : c = [] := List.length_eq_zero.mp (Nat.le_zero.mp hc)
      subst this; rfl
    | succ m ih =>
      intro c hc
      cases c with
      | nil => rfl
      | cons k rest =>
        have hrest : rest.length ≤ m := by
          simp only [List.length_cons] at hc
          omega
        have hdroplen : (rest.drop k).length ≤ m := by
          simp only [List.length_drop]
          omega
        rw [offsetRecords_cons]
        simp only [List.length_cons, List.length_append, List.length_map,
          List.length_take]
        rw [ih (rest.drop k) hdroplen]
        simp only [List.length_drop]
        omega
  intro c
  exact key c.length c (le_refl _)

/-- The offset walk of `combine_mesh_arrays` preserves the record structure
exactly: every count field is unchanged and every index gets the offset
added.  A buffer that does not parse into complete records still does not
parse after the walk. -/
theorem parseRecords_offsetRecords (off : Nat) :
    ∀ (c : List Nat),
      parseRecords (offsetRecords off c) =
        (parseRecords c).map
          (List.map (fun r => (r.1, r.2.map (· + off)))) := by
  have key : ∀ (n : Nat) (c : List Nat), c.length ≤ n →
      parseRecords (offsetRecords off c) =
        (parseRecords c).map
          (List.map (fun r => (r.1, r.2.map (· + off)))) := by
    intro n
    induction n with
    | zero =>
      intro c hc
      have : c = [] := List.length_eq_zero.mp (Nat.le_zero.mp hc)
      subst this; rfl
    | succ m ih =>
      intro c hc
      cases c with
      | nil => rfl
      | cons k rest =>
        have hdroplen : (rest.drop k).length ≤ m := by
          simp only [List.length_drop]
          simp only [List.length_cons] at hc
          omega
        rw [offsetRecords_cons, parseRecords_cons, parseRecords_cons]
        by_cases hk : k ≤ rest.length
        · have hmaplen : ((rest.take k).map (· + off)).length = k := by
            simp [Nat.min_eq_left hk]
          have hcond : k ≤ ((rest.take k).map (· + off) ++
              offsetRecords off (rest.drop k)).length := by
            simp only [List.length_append, hmaplen]
            omega
          rw [if_pos hcond, if_pos hk]
          rw [List.take_left' hmaplen, List.drop_left' hmaplen]
          rw [ih (rest.drop k) hdroplen]
          cases parseRecords (rest.drop k) <;> simp
        · have hmaplen : ((rest.take k).map (· + off)).length = rest.length := by
            simp only [List.length_map, List.length_take]
            omega
          have hdrop : rest.drop k = [] := List.drop_eq_nil_of_le (by omega)
          have hcond : ¬ (k ≤ ((rest.take k).map (· + off) ++
              offsetRecords off (rest.drop k)).length) := by
            simp only [List.length_append, hmaplen, hdrop, offsetRecords_nil,
              List.length_nil]
            omega
          rw [if_neg hcond, if_neg hk]
          rfl
  intro c
  exact key c.length c (le_refl _)

/-- Parsing distributes over concatenation of topology buffers, provided the
first buffer parses completely. -/
theorem parseRecords_append :
    ∀ (a b : List Nat) (ra : List (Nat × List Nat)), parseRecords a = some ra →
      parseRecords (a ++ b) = (parseRecords b).map (fun rb => ra ++ rb) := by
  have key : ∀ (n : Nat) (a b : List Nat) (ra : List (Nat × List Nat)),
      a.length ≤ n → parseRecords a = some ra →
      parseRecords (a ++ b) = (parseRecords b).map (fun rb => ra ++ rb) := by
    intro n
    induction n with
    | zero =>
      intro a b ra ha hra
      have : a = [] := List.length_eq_zero.mp (Nat.le_zero.mp ha)
      subst this
      simp only [parseRecords] at hra
      rw [parseRecordsF_nil] at hra
      cases hra
      simp only [List.nil_append]
      cases parseRecords b <;> simp
    | succ m ih =>
      intro a b ra ha hra
      cases a with
      | nil =>
        simp only [parseRecords] at hra
        rw [parseRecordsF_nil] at hra
        cases hra
        simp only [List.nil_append]
        cases parseRecords b <;> simp
      | cons k rest =>
        have hdroplen : (rest.drop k).length ≤ m := by
          simp only [List.length_drop]
          simp only [List.length_cons] at ha
          omega
        rw [parseRecords_cons] at hra
        by_cases hk : k ≤ rest.length
        · rw [if_pos hk] at hra
          rw [List.cons_append, parseRecords_cons]
          have hk2 : k ≤ (rest ++ b).length := by
            simp only [List.length_append]
            omega
          rw [if_pos hk2]
          rw [List.take_append_of_le_length hk, List.drop_append_of_le_length hk]
          cases hpr : parseRecords (rest.drop k) with
          | none => rw [hpr] at hra; cases hra
          | some rs =>
            rw [hpr] at hra
            have hra' : (k, List.take k rest) :: rs = ra := by
              simpa using hra
            rw [ih (rest.drop k) b rs hdroplen hpr]
            subst hra'
            cases parseRecords b <;> simp
        · rw [if_neg hk] at hra
          cases hra
  intro a b ra hra
  exact key a.length a b ra (le_refl _) hra

theorem map_zip_eq_zipWith {α β γ : Type} (f : α → β → γ) :
    ∀ (l₁ : List α) (l₂ : List β),
      (l₁.zip l₂).map (fun p => f p.1 p.2) = List.zipWith f l₁ l₂ := by
  intro l₁
  induction l₁ with
  | nil => intro l₂; rfl
  | cons x xs ih =>
    intro l₂
    cases l₂ with
    | nil => rfl
    | cons y ys => simp [List.zip_cons_cons, ih]

/-- A well-formed topology buffer is shift-correct for any offset. -/
theorem shiftedOK_of_topologyOK (off n : Nat) (cell : List Nat)
    (h : topologyOK n cell = true) : shiftedOK off n cell := by
  unfold topologyOK at h
  cases hpr : parseRecords cell with
  | none => rw [hpr] at h; cases h
  | some rs =>
    rw [hpr] at h
    refine ⟨rs, hpr, ?_, ?_⟩
    · rw [parseRecords_offsetRecords, hpr]
      rfl
    · intro r hr j hj
      rw [List.mem_map] at hr
      obtain ⟨r₀, hr₀, rfl⟩ := hr
      simp only [List.mem_map] at hj
      obtain ⟨idx, hidx, rfl⟩ := hj
      have hb := List.all_eq_true.mp h r₀ hr₀
      have hb2 := List.all_eq_true.mp hb idx hidx
      simp only [decide_eq_true_eq] at hb2
      exact ⟨Nat.le_add_left _ _, by omega⟩

/-- `combine_mesh_arrays` succeeds whenever the argument lists are nonempty
and there are no more topology lists than point buffers, and the outputs
are the concatenations of the (adjusted) per-item buffers. -/
theorem combine_mesh_arrays_eq_ok {P C : Type} (points : List (List P))
    (cells : List (List Nat)) (colors : List (List C))
    (hp : points ≠ []) (hc : cells ≠ []) (hco : colors ≠ [])
    (hlen : cells.length ≤ points.length) :
    combine_mesh_arrays points cells colors =
      .ok { points := points.flatten,
            cells := ((cells.zip (offsets points)).map
              (fun pc => offsetRecords pc.2 pc.1)).flatten,
            colors := colors.flatten,
            pointsArg := points,
            cellsArg := (cells.zip (offsets points)).map
              (fun pc => offsetRecords pc.2 pc.1),
            colorsArg := colors } := by
  have hdrop : cells.drop (offsets points).length = [] := by
    rw [offsets_length points hp]
    exact List.drop_eq_nil_of_le hlen
  simp [combine_mesh_arrays, hdrop, hp, hc, hco]

/-- C1: for every call to `combine_mesh_arrays` with N parallel lists of
point buffers, topology record lists and color buffers (N ≥ 1, every
topology list well formed), the per-item offset is the exclusive prefix sum
of the point-buffer lengths, each record keeps its count field and gets the
offset added to every index, the outputs are the concatenations of the
adjusted topology buffers, the point buffers and the color buffers in item
order, and every index of the combined topology, after subtracting its
item's offset, is a valid index into that item's original point buffer. -/
theorem C1_combine_mesh_arrays_offsets_valid {P C : Type} (points : List (List P))
    (cells : List (List Nat)) (colors : List (List C))
    (hp : points ≠ []) (hc : cells ≠ []) (hco : colors ≠ [])
    (hlen : cells.length = points.length)
    (hwf : ∀ i, i < cells.length →
      topologyOK (points.getD i []).length (cells.getD i []) = true) :
    (offsets points =
      (List.range points.length).map
        (fun i => ((points.take i).map List.length).sum)) ∧
    (∃ out, combine_mesh_arrays points cells colors = Except.ok out ∧
      out.points = points.flatten ∧
      out.colors = colors.flatten ∧
      out.cells = ((cells.zip (offsets points)).map
        (fun pc => offsetRecords pc.2 pc.1)).flatten ∧
      ∀ i, i < cells.length →
        shiftedOK (((points.take i).map List.length).sum)
          (points.getD i []).length (cells.getD i [])) := by
  refine ⟨offsets_eq points hp, ?_⟩
  refine ⟨_, combine_mesh_arrays_eq_ok points cells colors hp hc hco (le_of_eq hlen),
    rfl, rfl, rfl, ?_⟩
  intro i hi
  exact shiftedOK_of_topologyOK _ _ _ (hwf i hi)

/-- Witness for C1 at a concrete two-item input. -/
theorem C1_witness :
    (offsets [[10, 11], [20]] =
      (List.range ([[10, 11], [20]] : List (List Nat)).length).map
        (fun i => ((([[10, 11], [20]] : List (List Nat)).take i).map List.length).sum)) ∧
    (∃ out, combine_mesh_arrays [[10, 11], [20]] [[2, 0, 1], [1, 0]]
        [[5, 5], [6]] = Except.ok out ∧
      out.points = ([[10, 11], [20]] : List (List Nat)).flatten ∧
      out.colors = ([[5, 5], [6]] : List (List Nat)).flatten ∧
      out.cells = ((([[2, 0, 1], [1, 0]] : List (List Nat)).zip
        (offsets [[10, 11], [20]])).map
        (fun pc => offsetRecords pc.2 pc.1)).flatten ∧
      ∀ i, i < ([[2, 0, 1], [1, 0]] : List (List Nat)).length →
        shiftedOK (((([[10, 11], [20]] : List (List Nat)).take i).map List.length).sum)
          (([[10, 11], [20]] : List (List Nat)).getD i []).length
          (([[2, 0, 1], [1, 0]] : List (List Nat)).getD i [])) :=
  C1_combine_mesh_arrays_offsets_valid [[10, 11], [20]] [[2, 0, 1], [1, 0]]
    [[5, 5], [6]] (by decide) (by decide) (by decide) (by decide) (by decide)

/-- C4 counterexample: the second item's topology buffer `[3, 0, 1]` is
malformed for its 1-point buffer (declared record size 3, only 2 entries
follow) and the second item's points and colors buffers have different
lengths (1 versus 2), yet `combine_mesh_arrays` raises neither
`MalformedTopology` nor `BufferLengthMismatch` — it returns a normal result
in which the truncated record was silently offset. -/
theorem C4_counterexample :
    topologyOK (([[7], [8]] : List (List Nat)).getD 1 []).length
      (([[1, 0], [3, 0, 1]] : List (List Nat)).getD 1 []) = false ∧
    (([[7], [8]] : List (List Nat)).getD 1 []).length ≠
      (([[5], [6, 6]] : List (List Nat)).getD 1 []).length ∧
    combine_mesh_arrays [[7], [8]] [[1, 0], [3, 0, 1]] [[5], [6, 6]] =
      Except.ok { points := [7, 8], cells := [1, 0, 3, 1, 2], colors := [5, 6, 6],
                  pointsArg := [[7], [8]], cellsArg := [[1, 0], [3, 1, 2]],
                  colorsArg := [[5], [6, 6]] } := by
  refine ⟨by decide, by decide, ?_⟩
  rfl

/-- C4 amended: `combine_mesh_arrays` performs no validation at all.  For
any nonempty inputs with at most as many topology lists as point buffers it
returns successfully — malformed count-prefixed records are silently
processed by offsetting only the indices actually present, and points and
colors buffers of mismatched lengths are concatenated as-is; the only
failures it can raise are the interpreter's own (empty concatenation or
indexing past the offset table). -/
theorem C4_amended_no_validation {P C : Type} (points : List (List P))
    (cells : List (List Nat)) (colors : List (List C))
    (hp : points ≠ []) (hc : cells ≠ []) (hco : colors ≠ [])
    (hlen : cells.length ≤ points.length) :
    ∃ out, combine_mesh_arrays points cells colors = Except.ok out ∧
      out.cells = ((cells.zip (offsets points)).map
        (fun pc => offsetRecords pc.2 pc.1)).flatten ∧
      out.points = points.flatten ∧
      out.colors = colors.flatten :=
  ⟨_, combine_mesh_arrays_eq_ok points cells colors hp hc hco hlen, rfl, rfl, rfl⟩

/-- Witness for the amended C4 at the malformed input of the counterexample. -/
theorem C4_amended_witness :
    ∃ out, combine_mesh_arrays [[7], [8]] [[1, 0], [3, 0, 1]] [[5], [6, 6]] =
        Except.ok out ∧
      out.cells = ((([[1, 0], [3, 0, 1]] : List (List Nat)).zip
        (offsets [[7], [8]])).map (fun pc => offsetRecords pc.2 pc.1)).flatten ∧
      out.points = ([[7], [8]] : List (List Nat)).flatten ∧
      out.colors = ([[5], [6, 6]] : List (List Nat)).flatten :=
  C4_amended_no_validation [[7], [8]] [[1, 0], [3, 0, 1]] [[5], [6, 6]]
    (by decide) (by decide) (by decide) (by decide)

/-- C5 counterexample: after the call, the caller's second topology list
holds `[1, 1]` instead of the original `[1, 0]` — the slice assignment in
`combine_mesh_arrays` wrote the offset index back into the caller's list,
so the caller-supplied topology lists are not unchanged. -/
theorem C5_counterexample :
    combine_mesh_arrays [[9], [9]] [[1, 0], [1, 0]] [[5], [5]] =
      Except.ok { points := [9, 9], cells := [1, 0, 1, 1], colors := [5, 5],
                  pointsArg := [[9], [9]], cellsArg := [[1, 0], [1, 1]],
                  colorsArg := [[5], [5]] } ∧
    ([[1, 0], [1, 1]] : List (List Nat)) ≠ [[1, 0], [1, 0]] := by
  refine ⟨?_, by decide⟩
  rfl

/-- C5 amended: `combine_mesh_arrays` has exactly one side effect — each
caller-supplied topology list is mutated in place into its offset-adjusted
form (item i gets offset i added to every index), while the caller's points
and colors lists are left unchanged. -/
theorem C5_amended_frame {P C : Type} (points : List (List P))
    (cells : List (List Nat)) (colors : List (List C))
    (hp : points ≠ []) (hc : cells ≠ []) (hco : colors ≠ [])
    (hlen : cells.length = points.length) :
    ∃ out, combine_mesh_arrays points cells colors = Except.ok out ∧
      out.pointsArg = points ∧
      out.colorsArg = colors ∧
      out.cellsArg = List.zipWith (fun c o => offsetRecords o c) cells (offsets points) := by
  refine ⟨_, combine_mesh_arrays_eq_ok points cells colors hp hc hco (le_of_eq hlen),
    rfl, rfl, ?_⟩
  exact map_zip_eq_zipWith (fun c o => offsetRecords o c) cells (offsets points)

/-- Witness for the amended C5 at a concrete input with a nonzero offset. -/
theorem C5_amended_witness :
    ∃ out, combine_mesh_arrays [[9], [9]] [[1, 0], [1, 0]] [[5], [5]] =
        Except.ok out ∧
      out.pointsArg = ([[9], [9]] : List (List Nat)) ∧
      out.colorsArg = ([[5], [5]] : List (List Nat)) ∧
      out.cellsArg = List.zipWith (fun c o => offsetRecords o c)
        [[1, 0], [1, 0]] (offsets [[9], [9]]) :=
  C5_amended_frame [[9], [9]] [[1, 0], [1, 0]] [[5], [5]]
    (by decide) (by decide) (by decide) (by decide)

theorem process_polyline_block_sentinel (l : List Int) :
    process_polyline_block (-1 :: l) = process_polyline_block l := by
  cases l with
  | nil => rfl
  | cons b rest => simp [process_polyline_block]

theorem process_polyline_block_run (rest : List Int) :
    ∀ (r : List Int), (-1 : Int) ∉ r →
      process_polyline_block (r ++ -1 :: rest) =
        segmentsOf r ++ process_polyline_block (-1 :: rest) := by
  intro r
  induction r with
  | nil => intro _; rfl
  | cons a t ih =>
    intro h
    have ha : a ≠ -1 := fun hc => h (hc ▸ List.mem_cons_self a t)
    have ht : (-1 : Int) ∉ t := fun hc => h (List.mem_cons_of_mem a hc)
    cases t with
    | nil =>
      simp [process_polyline_block, segmentsOf, process_polyline_block_sentinel]
    | cons b t' =>
      have hb : b ≠ -1 := fun hc => ht (hc ▸ List.mem_cons_self b t')
      have step := ih ht
      have hseg : segmentsOf (a :: b :: t') = [2, a, b] ++ segmentsOf (b :: t') := by
        simp [segmentsOf]
      rw [List.cons_append, List.cons_append]
      simp only [process_polyline_block]
      rw [if_pos (And.intro ha hb)]
      rw [List.cons_append] at step
      rw [step, hseg, List.append_assoc]

/-- C6: the `-1` entries of a VRML track index list act as sentinels
separating polyline runs — the emitted topology is exactly the
concatenation of the per-run segmentations, where each pair of consecutive
indices within one run yields one record `[2, i, j]`, no record crosses a
`-1` boundary, a run with a single index yields no record, and in
particular `[0,1,2,-1,5,6,-1]` yields `[2,0,1, 2,1,2, 2,5,6]`. -/
theorem C6_track_sentinel_segmentation (runs : List (List Int))
    (h : ∀ r ∈ runs, (-1 : Int) ∉ r) :
    process_polyline_block ((runs.map (fun r => r ++ [-1])).flatten) =
      (runs.map segmentsOf).flatten ∧
    (∀ x : Int, segmentsOf [x] = []) ∧
    process_polyline_block [0, 1, 2, -1, 5, 6, -1] =
      [2, 0, 1, 2, 1, 2, 2, 5, 6] := by
  refine ⟨?_, fun x => rfl, by decide⟩
  induction runs with
  | nil => rfl
  | cons r rs ih =>
    have hr : (-1 : Int) ∉ r := h r (List.mem_cons_self r rs)
    have hrs : ∀ q ∈ rs, (-1 : Int) ∉ q := fun q hq => h q (List.mem_cons_of_mem r hq)
    simp only [List.map_cons, List.flatten_cons, List.append_assoc, List.singleton_append]
    rw [process_polyline_block_run _ r hr, process_polyline_block_sentinel, ih hrs]

/-- Witness for C6 at the runs of the spec's concrete example. -/
theorem C6_witness :
    process_polyline_block ((([[0, 1, 2], [5, 6]] : List (List Int)).map
        (fun r => r ++ [-1])).flatten) =
      (([[0, 1, 2], [5, 6]] : List (List Int)).map segmentsOf).flatten ∧
    (∀ x : Int, segmentsOf [x] = []) ∧
    process_polyline_block [0, 1, 2, -1, 5, 6, -1] =
      [2, 0, 1, 2, 1, 2, 2, 5, 6] :=
  C6_track_sentinel_segmentation [[0, 1, 2], [5, 6]] (by decide)

theorem blockDelta_append (x y : List VLine) :
    blockDelta (x ++ y) = blockDelta x + blockDelta y := by
  simp [blockDelta]

theorem blockDelta_singleton (l : VLine) :
    blockDelta [l] = (l.opens : Int) - l.closes := by
  simp [blockDelta]

theorem extract_foldl_gap (g : List VLine) :
    ∀ (st : ExtractState), st.inside = false → (∀ l ∈ g, l.keyword = false) →
      g.foldl extract_step st = st := by
  induction g with
  | nil => intro st _ _; rfl
  | cons l g' ih =>
    intro st hin hg
    have hl : l.keyword = false := hg l (List.mem_cons_self l g')
    have hstep : extract_step st l = st := by
      simp [extract_step, hl, hin]
    rw [List.foldl_cons, hstep]
    exact ih st hin (fun x hx => hg x (List.mem_cons_of_mem l hx))

theorem extract_run (tail : List VLine) :
    ∀ (pref : List VLine) (st : ExtractState),
      st.inside = true → st.block = pref → st.depth = blockDelta pref →
      0 < blockDelta pref →
      (∀ l ∈ tail, l.keyword = false) →
      (∀ j, j < tail.length → 0 < blockDelta (pref ++ tail.take j)) →
      blockDelta (pref ++ tail) = 0 →
      tail.foldl extract_step st =
        { out := classify st.out (pref ++ tail), block := [], inside := false,
          depth := 0 } := by
  induction tail with
  | nil =>
    intro pref st _ _ _ hpos _ _ htot
    rw [List.append_nil] at htot
    omega
  | cons l tail' ih =>
    intro pref st hin hblk hdep hpos hkw hpref htot
    have hl : l.keyword = false := hkw l (List.mem_cons_self _ _)
    have hd2 : st.depth + (l.opens : Int) - l.closes = blockDelta (pref ++ [l]) := by
      rw [hdep, blockDelta_append, blockDelta_singleton]
      omega
    cases tail' with
    | nil =>
      have htot' : blockDelta (pref ++ [l]) = 0 := by
        simpa using htot
      have hcond : st.depth + (l.opens : Int) - l.closes = 0 := by
        rw [hd2, htot']
      have hstep : extract_step st l =
          { out := classify st.out (pref ++ [l]), block := [], inside := false,
            depth := 0 } := by
        simp [extract_step, hl, hin, hblk, hcond]
      rw [List.foldl_cons, hstep, List.foldl_nil]
    | cons m tail'' =>
      have hpos2 : 0 < blockDelta (pref ++ [l]) := by
        have h1 := hpref 1 (by simp)
        simpa using h1
      have hcond : ¬ (st.depth + (l.opens : Int) - l.closes = 0) := by
        rw [hd2]
        omega
      have hcond2 : ¬ (blockDelta (pref ++ [l]) = 0) := by
        omega
      have hstep : extract_step st l =
          { out := st.out, block := pref ++ [l], inside := true,
            depth := blockDelta (pref ++ [l]) } := by
        simp [extract_step, hl, hin, hblk, hcond, hd2, hcond2]
      rw [List.foldl_cons, hstep]
      have hres := ih (pref ++ [l])
        { out := st.out, block := pref ++ [l], inside := true,
          depth := blockDelta (pref ++ [l]) }
        rfl rfl rfl hpos2
        (fun x hx => hkw x (List.mem_cons_of_mem l hx))
        (fun j hj => by
          have h2 := hpref (j + 1) (by simpa using hj)
          simpa [List.append_assoc] using h2)
        (by simpa [List.append_assoc] using htot)
      rw [hres]
      simp [List.append_assoc]

theorem extract_block (b : List VLine) (hwf : WFBlock b) (st : ExtractState)
    (_hin : st.inside = false) (hblk : st.block = []) :
    b.foldl extract_step st =
      { out := classify st.out b, block := [], inside := false, depth := 0 } := by
  obtain ⟨hne, hkey, htail, hpref, htot⟩ := hwf
  cases b with
  | nil => exact absurd rfl hne
  | cons l₁ btail =>
    have hkey1 : l₁.keyword = true := by simpa using hkey
    cases btail with
    | nil =>
      have htot1 : (l₁.opens : Int) - l₁.closes = 0 := by
        rw [blockDelta_singleton] at htot
        exact htot
      have hstep : extract_step st l₁ =
          { out := classify st.out [l₁], block := [], inside := false,
            depth := 0 } := by
        simp [extract_step, hkey1, hblk, htot1]
      rw [List.foldl_cons, hstep, List.foldl_nil]
    | cons m rest =>
      have hpos1 : 0 < blockDelta [l₁] := by
        have h1 := hpref 1 (by simp) (by decide)
        simpa using h1
      have hcond : ¬ ((l₁.opens : Int) - l₁.closes = 0) := by
        rw [blockDelta_singleton] at hpos1
        omega
      have hstep : extract_step st l₁ =
          { out := st.out, block := [l₁], inside := true,
            depth := blockDelta [l₁] } := by
        simp [extract_step, hkey1, hblk, hcond, blockDelta_singleton]
      rw [List.foldl_cons, hstep]
      have hres := extract_run (m :: rest) [l₁]
        { out := st.out, block := [l₁], inside := true, depth := blockDelta [l₁] }
        rfl rfl rfl hpos1
        (fun x hx => htail x hx)
        (fun j hj => by
          have h2 := hpref (j + 1) (by simpa using hj) (by omega)
          simpa using h2)
        (by simpa using htot)
      rw [hres]
      rfl

theorem extract_interleave :
    ∀ (blocks gaps : List (List VLine)) (o : ExtractOut),
      gaps.length = blocks.length + 1 →
      (∀ g ∈ gaps, ∀ l ∈ g, l.keyword = false) →
      (∀ b ∈ blocks, WFBlock b) →
      (interleave gaps blocks).foldl extract_step
          { out := o, block := [], inside := false, depth := 0 } =
        { out := blocks.foldl classify o, block := [], inside := false,
          depth := 0 } := by
  intro blocks
  induction blocks with
  | nil =>
    intro gaps o hlen hgap _
    cases gaps with
    | nil => cases hlen
    | cons g gs =>
      have : gs = [] := by
        simp only [List.length_cons, List.length_nil] at hlen
        exact List.length_eq_zero.mp (by omega)
      subst this
      simp only [interleave, List.foldl_nil]
      exact extract_foldl_gap g _ rfl (hgap g (List.mem_cons_self g []))
  | cons b bs ih =>
    intro gaps o hlen hgap hwf
    cases gaps with
    | nil => cases hlen
    | cons g gs =>
      have hlen' : gs.length = bs.length + 1 := by
        simpa using hlen
      simp only [interleave]
      rw [List.foldl_append, List.foldl_append]
      rw [extract_foldl_gap g _ rfl (hgap g (List.mem_cons_self g gs))]
      rw [extract_block b (hwf b (List.mem_cons_self b bs)) _ rfl rfl]
      rw [ih gs (classify o b) hlen'
        (fun x hx => hgap x (List.mem_cons_of_mem g hx))
        (fun x hx => hwf x (List.mem_cons_of_mem b hx))]
      rfl

theorem getLast?_or {α : Type} (b : α) (l : List α) (x : Option α) :
    ((b :: l).getLast?).or x = (l.getLast?).or (some b) := by
  cases l with
  | nil => rfl
  | cons c t =>
    rw [List.getLast?_cons_cons]
    have hsome : ((c :: t).getLast?).isSome := by
      simp [List.getLast?_isSome]
    obtain ⟨y, hy⟩ := Option.isSome_iff_exists.mp hsome
    rw [hy]
    rfl

theorem foldl_classify (blocks : List (List VLine)) :
    ∀ (o : ExtractOut),
      blocks.foldl classify o =
        { viewpoint := ((blocks.filter
            (fun b => decide (kindOf b = BKind.view))).getLast?).or o.viewpoint,
          polylines := o.polylines ++ blocks.filter
            (fun b => decide (kindOf b = BKind.track)),
          markers := o.markers ++ blocks.filter
            (fun b => decide (kindOf b = BKind.marker)),
          solids := o.solids ++ blocks.filter
            (fun b => decide (kindOf b = BKind.solid)) } := by
  induction blocks with
  | nil => intro o; simp
  | cons b bs ih =>
    intro o
    rw [List.foldl_cons, ih (classify o b)]
    cases hk : kindOf b with
    | track =>
      simp [classify, hk, List.filter_cons]
    | marker =>
      simp [classify, hk, List.filter_cons]
    | solid =>
      simp [classify, hk, List.filter_cons]
    | view =>
      simp [classify, hk, List.filter_cons, getLast?_or]
    | junk =>
      simp [classify, hk, List.filter_cons]

theorem keyword_filter_gap (g : List VLine) (h : ∀ l ∈ g, l.keyword = false) :
    g.filter (fun l => l.keyword) = [] :=
  List.filter_eq_nil_iff.mpr (fun a ha => by simp [h a ha])

theorem keyword_filter_block (b : List VLine) (hwf : WFBlock b) :
    (b.filter (fun l => l.keyword)).length = 1 := by
  obtain ⟨hne, hkey, htail, _, _⟩ := hwf
  cases b with
  | nil => exact absurd rfl hne
  | cons l₁ t =>
    have hk : l₁.keyword = true := by simpa using hkey
    have ht : t.filter (fun l => l.keyword) = [] :=
      keyword_filter_gap t (fun x hx => htail x hx)
    simp [List.filter_cons, hk, ht]

theorem keyword_count_interleave :
    ∀ (blocks gaps : List (List VLine)),
      gaps.length = blocks.length + 1 →
      (∀ g ∈ gaps, ∀ l ∈ g, l.keyword = false) →
      (∀ b ∈ blocks, WFBlock b) →
      ((interleave gaps blocks).filter (fun l => l.keyword)).length =
        blocks.length := by
  intro blocks
  induction blocks with
  | nil =>
    intro gaps hlen hgap _
    cases gaps with
    | nil => cases hlen
    | cons g gs =>
      have : gs = [] := by
        simp only [List.length_cons, List.length_nil] at hlen
        exact List.length_eq_zero.mp (by omega)
      subst this
      simp only [interleave]
      rw [keyword_filter_gap g (hgap g (List.mem_cons_self g []))]
      rfl
  | cons b bs ih =>
    intro gaps hlen hgap hwf
    cases gaps with
    | nil => cases hlen
    | cons g gs =>
      have hlen' : gs.length = bs.length + 1 := by simpa using hlen
      simp only [interleave, List.filter_append, List.length_append]
      rw [keyword_filter_gap g (hgap g (List.mem_cons_self g gs))]
      rw [keyword_filter_block b (hwf b (List.mem_cons_self b bs))]
      rw [ih gs hlen' (fun x hx => hgap x (List.mem_cons_of_mem g hx))
        (fun x hx => hwf x (List.mem_cons_of_mem b hx))]
      simp [Nat.add_comm]

theorem kind_counts (blocks : List (List VLine))
    (hjunk : ∀ b ∈ blocks, kindOf b ≠ BKind.junk) :
    (blocks.filter (fun b => decide (kindOf b = BKind.track))).length +
    (blocks.filter (fun b => decide (kindOf b = BKind.marker))).length +
    (blocks.filter (fun b => decide (kindOf b = BKind.solid))).length +
    (blocks.filter (fun b => decide (kindOf b = BKind.view))).length =
      blocks.length := by
  induction blocks with
  | nil => rfl
  | cons b bs ih =>
    have hbs := ih (fun x hx => hjunk x (List.mem_cons_of_mem b hx))
    have hb := hjunk b (List.mem_cons_self b bs)
    cases hk : kindOf b with
    | track => simp [List.filter_cons, hk]; omega
    | marker => simp [List.filter_cons, hk]; omega
    | solid => simp [List.filter_cons, hk]; omega
    | view => simp [List.filter_cons, hk]; omega
    | junk => exact absurd hk hb

theorem getLast?_toList_length {α : Type} (l : List α) (h : l.length ≤ 1) :
    l.getLast?.toList.length = l.length := by
  cases l with
  | nil => rfl
  | cons x t =>
    cases t with
    | nil => rfl
    | cons y u => simp at h

/-- C7: for a well-formed VRML input — keyword-free gap lines interleaved
with blocks, each block starting with a `Shape`/`Anchor`/`Viewpoint` keyword
line, keeping a strictly positive running brace balance (opening minus
closing braces, counted anywhere on each line) on every proper prefix and
returning to zero exactly at its last line — `extract_blocks` extracts
every block whole (nested braces never close a block prematurely), files it
by the classification order of the source, and the number of extracted
blocks equals the number of top-level keyword lines. -/
theorem C7_extract_blocks_brace_balance (gaps blocks : List (List VLine))
    (hlen : gaps.length = blocks.length + 1)
    (hgap : ∀ g ∈ gaps, ∀ l ∈ g, l.keyword = false)
    (hwf : ∀ b ∈ blocks, WFBlock b)
    (hjunk : ∀ b ∈ blocks, kindOf b ≠ BKind.junk)
    (hview : (blocks.filter (fun b => decide (kindOf b = BKind.view))).length ≤ 1) :
    extract_blocks (interleave gaps blocks) =
      { out := { viewpoint :=
                   (blocks.filter (fun b => decide (kindOf b = BKind.view))).getLast?,
                 polylines := blocks.filter (fun b => decide (kindOf b = BKind.track)),
                 markers := blocks.filter (fun b => decide (kindOf b = BKind.marker)),
                 solids := blocks.filter (fun b => decide (kindOf b = BKind.solid)) },
        block := [], inside := false, depth := 0 } ∧
    (blocks.filter (fun b => decide (kindOf b = BKind.track))).length +
      (blocks.filter (fun b => decide (kindOf b = BKind.marker))).length +
      (blocks.filter (fun b => decide (kindOf b = BKind.solid))).length +
      (blocks.filter
        (fun b => decide (kindOf b = BKind.view))).getLast?.toList.length =
      ((interleave gaps blocks).filter (fun l => l.keyword)).length := by
  constructor
  · rw [show extract_blocks (interleave gaps blocks) =
        (interleave gaps blocks).foldl extract_step
          { out := { viewpoint := none, polylines := [], markers := [], solids := [] },
            block := [], inside := false, depth := 0 } from rfl]
    rw [extract_interleave blocks gaps _ hlen hgap hwf]
    rw [foldl_classify]
    simp
  · rw [keyword_count_interleave blocks gaps hlen hgap hwf]
    rw [getLast?_toList_length _ hview]
    exact kind_counts blocks hjunk

/-- Witness for C7 on a two-block fixture whose first block nests braces. -/
theorem C7_witness :
    extract_blocks (interleave
        [[⟨false, 0, 0, false, false, false, false⟩], [], []]
        [[⟨true, 1, 0, true, false, false, false⟩,
          ⟨false, 1, 0, false, false, false, false⟩,
          ⟨false, 0, 2, false, false, false, false⟩],
         [⟨true, 1, 0, false, true, false, false⟩,
          ⟨false, 0, 1, false, false, false, false⟩]]) =
      { out := { viewpoint :=
                   (([[⟨true, 1, 0, true, false, false, false⟩,
                       ⟨false, 1, 0, false, false, false, false⟩,
                       ⟨false, 0, 2, false, false, false, false⟩],
                      [⟨true, 1, 0, false, true, false, false⟩,
                       ⟨false, 0, 1, false, false, false, false⟩]] :
                     List (List VLine)).filter
                     (fun b => decide (kindOf b = BKind.view))).getLast?,
                 polylines := ([[⟨true, 1, 0, true, false, false, false⟩,
                       ⟨false, 1, 0, false, false, false, false⟩,
                       ⟨false, 0, 2, false, false, false, false⟩],
                      [⟨true, 1, 0, false, true, false, false⟩,
                       ⟨false, 0, 1, false, false, false, false⟩]] :
                     List (List VLine)).filter
                     (fun b => decide (kindOf b = BKind.track)),
                 markers := ([[⟨true, 1, 0, true, false, false, false⟩,
                       ⟨false, 1, 0, false, false, false, false⟩,
                       ⟨false, 0, 2, false, false, false, false⟩],
                      [⟨true, 1, 0, false, true, false, false⟩,
                       ⟨false, 0, 1, false, false, false, false⟩]] :
                     List (List VLine)).filter
                     (fun b => decide (kindOf b = BKind.marker)),
                 solids := ([[⟨true, 1, 0, true, false, false, false⟩,
                       ⟨false, 1, 0, false, false, false, false⟩,
                       ⟨false, 0, 2, false, false, false, false⟩],
                      [⟨true, 1, 0, false, true, false, false⟩,
                       ⟨false, 0, 1, false, false, false, false⟩]] :
                     List (List VLine)).filter
                     (fun b => decide (kindOf b = BKind.solid)) },
        block := [], inside := false, depth := 0 } ∧
    (([[⟨true, 1, 0, true, false, false, false⟩,
        ⟨false, 1, 0, false, false, false, false⟩,
        ⟨false, 0, 2, false, false, false, false⟩],
       [⟨true, 1, 0, false, true, false, false⟩,
        ⟨false, 0, 1, false, false, false, false⟩]] :
      List (List VLine)).filter
      (fun b => decide (kindOf b = BKind.track))).length +
      (([[⟨true, 1, 0, true, false, false, false⟩,
          ⟨false, 1, 0, false, false, false, false⟩,
          ⟨false, 0, 2, false, false, false, false⟩],
         [⟨true, 1, 0, false, true, false, false⟩,
          ⟨false, 0, 1, false, false, false, false⟩]] :
        List (List VLine)).filter
        (fun b => decide (kindOf b = BKind.marker))).length +
      (([[⟨true, 1, 0, true, false, false, false⟩,
          ⟨false, 1, 0, false, false, false, false⟩,
          ⟨false, 0, 2, false, false, false, false⟩],
         [⟨true, 1, 0, false, true, false, false⟩,
          ⟨false, 0, 1, false, false, false, false⟩]] :
        List (List VLine)).filter
        (fun b => decide (kindOf b = BKind.solid))).length +
      (([[⟨true, 1, 0, true, false, false, false⟩,
          ⟨false, 1, 0, false, false, false, false⟩,
          ⟨false, 0, 2, false, false, false, false⟩],
         [⟨true, 1, 0, false, true, false, false⟩,
          ⟨false, 0, 1, false, false, false, false⟩]] :
        List (List VLine)).filter
        (fun b => decide (kindOf b = BKind.view))).getLast?.toList.length =
      ((interleave
        [[⟨false, 0, 0, false, false, false, false⟩], [], []]
        [[⟨true, 1, 0, true, false, false, false⟩,
          ⟨false, 1, 0, false, false, false, false⟩,
          ⟨false, 0, 2, false, false, false, false⟩],
         [⟨true, 1, 0, false, true, false, false⟩,
          ⟨false, 0, 1, false, false, false, false⟩]]).filter
        (fun l => l.keyword)).length :=
  C7_extract_blocks_brace_balance
    [[⟨false, 0, 0, false, false, false, false⟩], [], []]
    [[⟨true, 1, 0, true, false, false, false⟩,
      ⟨false, 1, 0, false, false, false, false⟩,
      ⟨false, 0, 2, false, false, false, false⟩],
     [⟨true, 1, 0, false, true, false, false⟩,
      ⟨false, 0, 1, false, false, false, false⟩]]
    (by decide) (by decide) (by decide) (by decide) (by decide)

theorem getD_map_range {α : Type} (f : Nat → α) (d : α) {n i : Nat} (h : i < n) :
    ((List.range n).map f).getD i d = f i := by
  rw [List.getD_eq_getElem?_getD, List.getElem?_map]
  simp [List.getElem?_range h]

theorem parseRecords_quads (g : Nat → List Nat) (hg : ∀ i, (g i).length = 4) :
    ∀ (l : List Nat),
      parseRecords (l.flatMap (fun i => 4 :: g i)) =
        some (l.map (fun i => (4, g i))) := by
  intro l
  induction l with
  | nil => rfl
  | cons i t ih =>
    have hcons : (i :: t).flatMap (fun j => 4 :: g j) =
        4 :: (g i ++ t.flatMap (fun j => 4 :: g j)) := by
      simp [List.flatMap_cons]
    rw [hcons, parseRecords_cons]
    have hlen : (4 : Nat) ≤ (g i ++ t.flatMap (fun j => 4 :: g j)).length := by
      simp [List.length_append, hg i]
    rw [if_pos hlen, List.take_left' (hg i), List.drop_left' (hg i), ih]
    rfl

/-- C8: for every cylinder primitive, `create_cylinder_mesh` emits exactly
`num_segments` ring points around each of the two end caps — the second
ring's offsets from its center are the first ring's offsets rescaled by
`r2 / r1`, i.e. each ring is scaled by its endpoint's radius — plus exactly
`num_segments` quadrilateral side faces (count-prefix 4) joining
corresponding points of the two rings, all indices in range, and no
end-cap faces, so the tube is open-ended. -/
theorem C8_create_cylinder_mesh_open_tube (cossin : Nat → Nat → ℚ × ℚ)
    (p1 p2 u v : Vec3) (r1 r2 : ℚ) (n : Nat) (hn : 1 ≤ n) :
    (create_cylinder_mesh cossin p1 p2 u v r1 r2 n).1.length = 2 * n ∧
    (∀ i, i < n →
      (create_cylinder_mesh cossin p1 p2 u v r1 r2 n).1.getD i 0 =
        p1 + (cossin i n).1 • u + (cossin i n).2 • v ∧
      (create_cylinder_mesh cossin p1 p2 u v r1 r2 n).1.getD (n + i) 0 =
        p2 + (cossin i n).1 • ((r2 / r1) • u) + (cossin i n).2 • ((r2 / r1) • v) ∧
      (create_cylinder_mesh cossin p1 p2 u v r1 r2 n).1.getD (n + i) 0 - p2 =
        (r2 / r1) • ((create_cylinder_mesh cossin p1 p2 u v r1 r2 n).1.getD i 0 - p1)) ∧
    parseRecords (create_cylinder_mesh cossin p1 p2 u v r1 r2 n).2 =
      some ((List.range n).map
        (fun i => (4, [i, (i + 1) % n, (i + 1) % n + n, i + n]))) ∧
    numRecords (create_cylinder_mesh cossin p1 p2 u v r1 r2 n).2 = n ∧
    (∀ r ∈ (List.range n).map
        (fun i => ((4 : Nat), [i, (i + 1) % n, (i + 1) % n + n, i + n])),
      r.1 = 4 ∧ ∀ j ∈ r.2, j < 2 * n) := by
  have hcap1len : ((List.range n).map
      (fun i => p1 + (cossin i n).1 • u + (cossin i n).2 • v)).length = n := by
    simp
  have hparse : parseRecords (create_cylinder_mesh cossin p1 p2 u v r1 r2 n).2 =
      some ((List.range n).map
        (fun i => (4, [i, (i + 1) % n, (i + 1) % n + n, i + n]))) := by
    have := parseRecords_quads
      (fun i => [i, (i + 1) % n, (i + 1) % n + n, i + n])
      (fun i => rfl) (List.range n)
    simpa [create_cylinder_mesh] using this
  refine ⟨?_, ?_, hparse, ?_, ?_⟩
  · simp [create_cylinder_mesh]
    omega
  · intro i hi
    have hfst : (create_cylinder_mesh cossin p1 p2 u v r1 r2 n).1 =
        ((List.range n).map
          (fun j => p1 + (cossin j n).1 • u + (cossin j n).2 • v)) ++
        ((List.range n).map
          (fun j => p2 + (cossin j n).1 • ((r2 / r1) • u) +
            (cossin j n).2 • ((r2 / r1) • v))) := rfl
    have hget1 : (create_cylinder_mesh cossin p1 p2 u v r1 r2 n).1.getD i 0 =
        p1 + (cossin i n).1 • u + (cossin i n).2 • v := by
      rw [hfst]
      rw [List.getD_append _ _ _ _ (by rw [hcap1len]; exact hi)]
      exact getD_map_range _ _ hi
    have hget2 : (create_cylinder_mesh cossin p1 p2 u v r1 r2 n).1.getD (n + i) 0 =
        p2 + (cossin i n).1 • ((r2 / r1) • u) + (cossin i n).2 • ((r2 / r1) • v) := by
      rw [hfst]
      rw [show n + i = ((List.range n).map
        (fun j => p1 + (cossin j n).1 • u + (cossin j n).2 • v)).length + i by
          rw [hcap1len]]
      rw [List.getD_append_right _ _ _ _ (by omega)]
      rw [Nat.add_sub_cancel_left]
      exact getD_map_range _ _ hi
    refine ⟨hget1, hget2, ?_⟩
    rw [hget1, hget2]
    have h1 : p2 + (cossin i n).1 • ((r2 / r1) • u) +
        (cossin i n).2 • ((r2 / r1) • v) - p2 =
        (cossin i n).1 • ((r2 / r1) • u) + (cossin i n).2 • ((r2 / r1) • v) := by
      abel
    have h2 : p1 + (cossin i n).1 • u + (cossin i n).2 • v - p1 =
        (cossin i n).1 • u + (cossin i n).2 • v := by
      abel
    rw [h1, h2, smul_add, smul_smul, smul_smul, smul_smul, smul_smul,
      mul_comm ((cossin i n).1) (r2 / r1), mul_comm ((cossin i n).2) (r2 / r1)]
  · rw [numRecords, hparse]
    simp
  · intro r hr
    rw [List.mem_map] at hr
    obtain ⟨i, hi, rfl⟩ := hr
    rw [List.mem_range] at hi
    have hmod : (i + 1) % n < n := Nat.mod_lt _ (by omega)
    refine ⟨rfl, ?_⟩
    intro j hj
    simp only [List.mem_cons, List.not_mem_nil, or_false] at hj
    rcases hj with rfl | rfl | rfl | rfl
    · omega
    · omega
    · omega
    · omega

/-- Witness for C8 at the source's default of 20 segments. -/
theorem C8_witness :
    (create_cylinder_mesh (fun _ _ => (1, 0)) (0, 0, 0) (0, 0, 1) (1, 0, 0)
      (0, 1, 0) 1 2 20).1.length = 2 * 20 ∧
    (∀ i, i < 20 →
      (create_cylinder_mesh (fun _ _ => (1, 0)) (0, 0, 0) (0, 0, 1) (1, 0, 0)
        (0, 1, 0) 1 2 20).1.getD i 0 =
        (0, 0, 0) + ((fun (_ _ : Nat) => ((1 : ℚ), (0 : ℚ))) i 20).1 • ((1 : ℚ), (0 : ℚ), (0 : ℚ)) +
          ((fun (_ _ : Nat) => ((1 : ℚ), (0 : ℚ))) i 20).2 • ((0 : ℚ), (1 : ℚ), (0 : ℚ)) ∧
      (create_cylinder_mesh (fun _ _ => (1, 0)) (0, 0, 0) (0, 0, 1) (1, 0, 0)
        (0, 1, 0) 1 2 20).1.getD (20 + i) 0 =
        (0, 0, 1) + ((fun (_ _ : Nat) => ((1 : ℚ), (0 : ℚ))) i 20).1 •
            (((2 : ℚ) / 1) • ((1 : ℚ), (0 : ℚ), (0 : ℚ))) +
          ((fun (_ _ : Nat) => ((1 : ℚ), (0 : ℚ))) i 20).2 •
            (((2 : ℚ) / 1) • ((0 : ℚ), (1 : ℚ), (0 : ℚ))) ∧
      (create_cylinder_mesh (fun _ _ => (1, 0)) (0, 0, 0) (0, 0, 1) (1, 0, 0)
        (0, 1, 0) 1 2 20).1.getD (20 + i) 0 - (0, 0, 1) =
        ((2 : ℚ) / 1) • ((create_cylinder_mesh (fun _ _ => (1, 0)) (0, 0, 0)
          (0, 0, 1) (1, 0, 0) (0, 1, 0) 1 2 20).1.getD i 0 - (0, 0, 0))) ∧
    parseRecords (create_cylinder_mesh (fun _ _ => (1, 0)) (0, 0, 0) (0, 0, 1)
        (1, 0, 0) (0, 1, 0) 1 2 20).2 =
      some ((List.range 20).map
        (fun i => (4, [i, (i + 1) % 20, (i + 1) % 20 + 20, i + 20]))) ∧
    numRecords (create_cylinder_mesh (fun _ _ => (1, 0)) (0, 0, 0) (0, 0, 1)
        (1, 0, 0) (0, 1, 0) 1 2 20).2 = 20 ∧
    (∀ r ∈ (List.range 20).map
        (fun i => ((4 : Nat), [i, (i + 1) % 20, (i + 1) % 20 + 20, i + 20])),
      r.1 = 4 ∧ ∀ j ∈ r.2, j < 2 * 20) :=
  C8_create_cylinder_mesh_open_tube (fun _ _ => (1, 0)) (0, 0, 0) (0, 0, 1)
    (1, 0, 0) (0, 1, 0) 1 2 20 (by decide)

theorem exbind_ok {α β : Type} (a : α) (f : α → Except PyError β) :
    ((Except.ok a : Except PyError α) >>= f) = f a := rfl

theorem mapME_congr_ok {α β : Type} (f : α → Except PyError β) (g : α → β) :
    ∀ (l : List α), (∀ a ∈ l, f a = .ok (g a)) → mapME f l = .ok (l.map g) := by
  intro l
  induction l with
  | nil => intro _; rfl
  | cons a t ih =>
    intro h
    show (f a >>= fun b => mapME f t >>= fun bs => Except.ok (b :: bs)) = _
    rw [h a (List.mem_cons_self a t), exbind_ok,
      ih (fun x hx => h x (List.mem_cons_of_mem a hx)), exbind_ok, List.map_cons]

theorem mapME_ok_forall₂ {α β : Type} (f : α → Except PyError β) :
    ∀ (l : List α) (rl : List β), mapME f l = .ok rl →
      List.Forall₂ (fun a b => f a = .ok b) l rl := by
  intro l
  induction l with
  | nil =>
    intro rl h
    cases h
    exact List.Forall₂.nil
  | cons a t ih =>
    intro rl h
    rw [show mapME f (a :: t) =
      (f a >>= fun b => mapME f t >>= fun bs => Except.ok (b :: bs)) from rfl] at h
    cases hfa : f a with
    | error e =>
      rw [hfa] at h
      cases h
    | ok b =>
      rw [hfa, exbind_ok] at h
      cases hmt : mapME f t with
      | error e =>
        rw [hmt] at h
        cases h
      | ok bs =>
        rw [hmt, exbind_ok] at h
        cases h
        exact List.Forall₂.cons hfa (ih bs hmt)

theorem headOrErr_eq_ok {α : Type} (l : List α) (d : α) (h : l ≠ []) :
    headOrErr l = .ok (l.headD d) := by
  cases l with
  | nil => exact absurd rfl h
  | cons x t => rfl

theorem topologyOK_isSome (n : Nat) (c : List Nat) (h : topologyOK n c = true) :
    (parseRecords c).isSome := by
  unfold topologyOK at h
  cases hpr : parseRecords c with
  | none => rw [hpr] at h; simp at h
  | some rs => rfl

theorem numRecords_offsetRecords (off : Nat) (c : List Nat) :
    numRecords (offsetRecords off c) = numRecords c := by
  rw [numRecords, numRecords, parseRecords_offsetRecords]
  cases parseRecords c <;> simp

theorem isSome_parse_offsetRecords (off : Nat) (c : List Nat)
    (h : (parseRecords c).isSome) : (parseRecords (offsetRecords off c)).isSome := by
  rw [parseRecords_offsetRecords]
  cases hpr : parseRecords c with
  | none => rw [hpr] at h; cases h
  | some rs => rfl

theorem parseRecords_flatten (ls : List (List Nat)) :
    (∀ c ∈ ls, (parseRecords c).isSome) →
      ∃ rs, parseRecords ls.flatten = some rs ∧
        rs.length = (ls.map numRecords).sum := by
  induction ls with
  | nil => intro _; exact ⟨[], rfl, rfl⟩
  | cons c t ih =>
    intro h
    have hc := h c (List.mem_cons_self c t)
    obtain ⟨rc, hrc⟩ := Option.isSome_iff_exists.mp hc
    obtain ⟨rt, hrt, hlen⟩ := ih (fun x hx => h x (List.mem_cons_of_mem c hx))
    refine ⟨rc ++ rt, ?_, ?_⟩
    · rw [List.flatten_cons, parseRecords_append c _ rc hrc, hrt]
      rfl
    · simp only [List.length_append, hlen, List.map_cons, List.sum_cons,
        numRecords, hrc, Option.getD_some]

theorem sum_numRecords_zip :
    ∀ (mis : List (List Nat)) (offs : List Nat), mis.length = offs.length →
      (((mis.zip offs).map (fun pc => offsetRecords pc.2 pc.1)).map
        numRecords).sum = (mis.map numRecords).sum := by
  intro mis
  induction mis with
  | nil => intro offs _; rfl
  | cons c t ih =>
    intro offs hl
    cases offs with
    | nil => cases hl
    | cons o os =>
      simp only [List.zip_cons_cons, List.map_cons, List.sum_cons,
        numRecords_offsetRecords]
      rw [ih os (by simpa using hl)]

theorem goodComp_inds_isSome {Pt Cl : Type} (m : HComp Pt Cl) (hg : goodComp m) :
    ∀ c ∈ m.mesh_inds, (parseRecords c).isSome := by
  intro c hc
  obtain ⟨hn0, h1, h2, hwf⟩ := hg
  obtain ⟨i, hi, hci⟩ := List.mem_iff_getElem.mp hc
  have hweq : m.mesh_inds.getD i [] = c := by
    rw [List.getD_eq_getElem?_getD, List.getElem?_eq_getElem hi, hci]
    rfl
  have hok := hwf i (by omega)
  rw [hweq] at hok
  exact topologyOK_isSome _ _ hok

theorem precombine_eq_ok {Pt Cl : Type} (m : HComp Pt Cl)
    (h1 : m.mesh_inds.length = m.mesh_points.length)
    (h2 : m.scalars.length = m.mesh_points.length) :
    precombine m = .ok (precombined m) := by
  cases m with
  | mk n s vis dot mps mis scs ch =>
    simp only [HComp.mesh_inds, HComp.mesh_points, HComp.scalars] at h1 h2
    simp only [precombine, precombined]
    by_cases hl : mps.length > 1
    · rw [if_pos hl, if_pos hl, if_neg (by omega)]
      have htk1 : mis.take mps.length = mis := by
        rw [← h1, List.take_length]
      have htk2 : scs.take mps.length = scs := by
        rw [← h2, List.take_length]
      rw [htk1, htk2]
      rw [combine_mesh_arrays_eq_ok mps mis scs
        (by intro hc; rw [hc] at hl; simp at hl)
        (by intro hc; rw [hc] at h1; simp at h1; omega)
        (by intro hc; rw [hc] at h2; simp at h2; omega)
        (le_of_eq h1)]
    · rw [if_neg hl, if_neg hl]

theorem precombined_fields {Pt Cl : Type} (m : HComp Pt Cl) :
    (precombined m).name = m.name ∧ (precombined m).shape = m.shape ∧
    (precombined m).visible = m.visible ∧ (precombined m).is_dot = m.is_dot ∧
    (precombined m).children = m.children := by
  cases m with
  | mk n s vis dot mps mis scs ch =>
    simp only [precombined]
    split
    · exact ⟨rfl, rfl, rfl, rfl, rfl⟩
    · exact ⟨rfl, rfl, rfl, rfl, rfl⟩

theorem precombined_points {Pt Cl : Type} (m : HComp Pt Cl)
    (h0 : m.mesh_points ≠ []) :
    (precombined m).mesh_points ≠ [] ∧
    ((precombined m).mesh_points.headD []).length = pointsTotal m := by
  cases m with
  | mk n s vis dot mps mis scs ch =>
    simp only [HComp.mesh_points] at h0
    simp only [precombined]
    by_cases hl : mps.length > 1
    · rw [if_pos hl]
      refine ⟨by simp [HComp.mesh_points], ?_⟩
      simp [HComp.mesh_points, pointsTotal, List.length_flatten]
    · rw [if_neg hl]
      obtain ⟨p, rfl⟩ : ∃ p, mps = [p] := by
        cases mps with
        | nil => exact absurd rfl h0
        | cons p t =>
          cases t with
          | nil => exact ⟨p, rfl⟩
          | cons q u => simp at hl
      exact ⟨by simp [HComp.mesh_points], by simp [HComp.mesh_points, pointsTotal]⟩

theorem precombined_inds {Pt Cl : Type} (m : HComp Pt Cl) (hg : goodComp m) :
    (precombined m).mesh_inds ≠ [] ∧
    (parseRecords ((precombined m).mesh_inds.headD [])).isSome ∧
    numRecords ((precombined m).mesh_inds.headD []) = recordsTotal m := by
  have hsome := goodComp_inds_isSome m hg
  obtain ⟨h0, h1, h2, hwf⟩ := hg
  cases m with
  | mk n s vis dot mps mis scs ch =>
    simp only [HComp.mesh_points, HComp.mesh_inds, HComp.scalars] at h0 h1 h2 hwf hsome
    simp only [precombined]
    by_cases hl : mps.length > 1
    · rw [if_pos hl]
      have hofflen : (offsets mps).length = mps.length := offsets_length mps h0
      have hziplen : mis.length = (offsets mps).length := by omega
      have hmem : ∀ c ∈ (mis.zip (offsets mps)).map
          (fun pc => offsetRecords pc.2 pc.1), (parseRecords c).isSome := by
        intro c hc
        rw [List.mem_map] at hc
        obtain ⟨pc, hpc, rfl⟩ := hc
        exact isSome_parse_offsetRecords _ _ (hsome pc.1 (List.of_mem_zip hpc).1)
      obtain ⟨rs, hrs, hrslen⟩ := parseRecords_flatten _ hmem
      refine ⟨by simp [HComp.mesh_inds], ?_, ?_⟩
      · simp only [HComp.mesh_inds, List.headD_cons]
        rw [hrs]
        rfl
      · simp only [HComp.mesh_inds, List.headD_cons, recordsTotal]
        rw [numRecords, hrs, Option.getD_some, hrslen,
          sum_numRecords_zip mis (offsets mps) hziplen]
    · rw [if_neg hl]
      obtain ⟨c, rfl⟩ : ∃ c, mis = [c] := by
        have : mps.length = 1 := by
          cases mps with
          | nil => exact absurd rfl h0
          | cons p t =>
            cases t with
            | nil => rfl
            | cons q u => simp at hl
        cases mis with
        | nil => rw [this] at h1; cases h1
        | cons c t =>
          cases t with
          | nil => exact ⟨c, rfl⟩
          | cons d u =>
            rw [this] at h1
            simp at h1
      refine ⟨by simp [HComp.mesh_inds], ?_, ?_⟩
      · simp only [HComp.mesh_inds, List.headD_cons]
        exact hsome c (List.mem_cons_self c [])
      · simp [HComp.mesh_inds, recordsTotal]

theorem precombined_scalars {Pt Cl : Type} (m : HComp Pt Cl)
    (h0 : m.mesh_points ≠ []) (h2 : m.scalars.length = m.mesh_points.length) :
    (precombined m).scalars ≠ [] := by
  cases m with
  | mk n s vis dot mps mis scs ch =>
    simp only [HComp.mesh_points, HComp.scalars] at h0 h2
    simp only [precombined]
    by_cases hl : mps.length > 1
    · rw [if_pos hl]
      simp [HComp.scalars]
    · rw [if_neg hl]
      simp only [HComp.scalars]
      intro hc
      subst hc
      simp only [List.length_nil] at h2
      exact h0 (List.length_eq_zero.mp h2.symm)

theorem flatMap_precombined_children {Pt Cl : Type} :
    ∀ (l : List (HComp Pt Cl)),
      (l.map precombined).flatMap (fun c => c.children) =
        l.flatMap HComp.children := by
  intro l
  induction l with
  | nil => rfl
  | cons a t ih =>
    simp only [List.map_cons, List.flatMap_cons, ih]
    rw [(precombined_fields a).2.2.2.2]

/-- C9: combining K > 1 same-named siblings yields a single component whose
point buffer length is the sum of the members' point-buffer totals, whose
topology record count is the sum of the members' record counts, which keeps
the first member's name, shape, visibility and dot flag, and whose children
list is the concatenation of all members' children; and in the sibling
reduction pass, groups of size 1 pass through unchanged while groups of
size > 1 are replaced by their `combine_dicts` result. -/
theorem C9_sibling_reduction {Pt Cl : Type} (d d2 : HComp Pt Cl)
    (rest : List (HComp Pt Cl))
    (hgood : ∀ m ∈ d :: d2 :: rest, goodComp m) :
    (∃ r, combine_dicts (d :: d2 :: rest) = .ok r ∧
      r.name = d.name ∧ r.shape = d.shape ∧ r.visible = d.visible ∧
      r.is_dot = d.is_dot ∧
      (∃ bigP bigC bigS, r.mesh_points = [bigP] ∧ r.mesh_inds = [bigC] ∧
        r.scalars = [bigS] ∧
        bigP.length = ((d :: d2 :: rest).map pointsTotal).sum ∧
        numRecords bigC = ((d :: d2 :: rest).map recordsTotal).sum) ∧
      r.children = (d :: d2 :: rest).flatMap HComp.children) ∧
    (∀ (children rl : List (HComp Pt Cl)), children.length > 1 →
      reduce_components_step children = .ok rl →
      List.Forall₂ (fun nm r =>
        ((children.filter (fun c => decide (c.name = nm))).length > 1 →
          combine_dicts (children.filter (fun c => decide (c.name = nm))) =
            .ok r) ∧
        ((children.filter (fun c => decide (c.name = nm))).length ≤ 1 →
          children.filter (fun c => decide (c.name = nm)) = [r]))
        (collectNames children) rl) := by
  constructor
  · -- the combine_dicts part
    have hpre : mapME precombine (d :: d2 :: rest) =
        .ok ((d :: d2 :: rest).map precombined) :=
      mapME_congr_ok precombine precombined _ (fun m hm =>
        precombine_eq_ok m (hgood m hm).2.1 (hgood m hm).2.2.1)
    have hpts : mapME (fun c => headOrErr c.mesh_points)
        ((d :: d2 :: rest).map precombined) =
        .ok (((d :: d2 :: rest).map precombined).map
          (fun c => c.mesh_points.headD [])) :=
      mapME_congr_ok _ _ _ (fun c hc => by
        rw [List.mem_map] at hc
        obtain ⟨m, hm, rfl⟩ := hc
        exact headOrErr_eq_ok _ [] (precombined_points m (hgood m hm).1).1)
    have hinds : mapME (fun c => headOrErr c.mesh_inds)
        ((d :: d2 :: rest).map precombined) =
        .ok (((d :: d2 :: rest).map precombined).map
          (fun c => c.mesh_inds.headD [])) :=
      mapME_congr_ok _ _ _ (fun c hc => by
        rw [List.mem_map] at hc
        obtain ⟨m, hm, rfl⟩ := hc
        exact headOrErr_eq_ok _ [] (precombined_inds m (hgood m hm)).1)
    have hscs : mapME (fun c => headOrErr c.scalars)
        ((d :: d2 :: rest).map precombined) =
        .ok (((d :: d2 :: rest).map precombined).map
          (fun c => c.scalars.headD [])) :=
      mapME_congr_ok _ _ _ (fun c hc => by
        rw [List.mem_map] at hc
        obtain ⟨m, hm, rfl⟩ := hc
        exact headOrErr_eq_ok _ []
          (precombined_scalars m (hgood m hm).1 (hgood m hm).2.2.1))
    have hplen : (((d :: d2 :: rest).map precombined).map
        (fun c => c.mesh_inds.headD [])).length ≤
        (((d :: d2 :: rest).map precombined).map
          (fun c => c.mesh_points.headD [])).length := by
      simp
    have hcomb := combine_mesh_arrays_eq_ok
      (((d :: d2 :: rest).map precombined).map (fun c => c.mesh_points.headD []))
      (((d :: d2 :: rest).map precombined).map (fun c => c.mesh_inds.headD []))
      (((d :: d2 :: rest).map precombined).map (fun c => c.scalars.headD []))
      (by simp) (by simp) (by simp) hplen
    have hmain : combine_dicts (d :: d2 :: rest) =
        (mapME precombine (d :: d2 :: rest) >>= fun pre =>
        mapME (fun c => headOrErr c.mesh_points) pre >>= fun pts =>
        mapME (fun c => headOrErr c.mesh_inds) pre >>= fun inds =>
        mapME (fun c => headOrErr c.scalars) pre >>= fun scs =>
        combine_mesh_arrays pts inds scs >>= fun out =>
        Except.ok (.mk d.name d.shape d.visible d.is_dot [out.points]
          [out.cells] [out.colors] (pre.flatMap (fun c => c.children)))) := rfl
    rw [hpre, exbind_ok, hpts, exbind_ok, hinds, exbind_ok, hscs, exbind_ok,
      hcomb, exbind_ok] at hmain
    refine ⟨_, hmain, rfl, rfl, rfl, rfl, ?_, ?_⟩
    · refine ⟨_, _, _, rfl, rfl, rfl, ?_, ?_⟩
      · show (((d :: d2 :: rest).map precombined).map
          (fun c => c.mesh_points.headD [])).flatten.length = _
        rw [List.length_flatten, List.map_map, List.map_map]
        congr 1
        refine List.map_congr_left ?_
        intro m hm
        exact (precombined_points m (hgood m hm).1).2
      · have hP0 : ((d :: d2 :: rest).map precombined).map
            (fun c => c.mesh_points.headD []) ≠ [] := by simp
        have hofflen : (((d :: d2 :: rest).map precombined).map
            (fun c => c.mesh_inds.headD [])).length =
            (offsets (((d :: d2 :: rest).map precombined).map
              (fun c => c.mesh_points.headD []))).length := by
          rw [offsets_length _ hP0]
          simp
        have hmem : ∀ c ∈ (((((d :: d2 :: rest).map precombined).map
            (fun c => c.mesh_inds.headD [])).zip
            (offsets (((d :: d2 :: rest).map precombined).map
              (fun c => c.mesh_points.headD [])))).map
            (fun pc => offsetRecords pc.2 pc.1)), (parseRecords c).isSome := by
          intro c hc
          rw [List.mem_map] at hc
          obtain ⟨pc, hpc, rfl⟩ := hc
          have hfst := (List.of_mem_zip hpc).1
          rw [List.mem_map] at hfst
          obtain ⟨c₀, hc₀, hfsteq⟩ := hfst
          rw [List.mem_map] at hc₀
          obtain ⟨m, hm, rfl⟩ := hc₀
          rw [← hfsteq]
          exact isSome_parse_offsetRecords _ _
            (precombined_inds m (hgood m hm)).2.1
        obtain ⟨rs, hrs, hrslen⟩ := parseRecords_flatten _ hmem
        show numRecords ((((((d :: d2 :: rest).map precombined).map
            (fun c => c.mesh_inds.headD [])).zip
            (offsets (((d :: d2 :: rest).map precombined).map
              (fun c => c.mesh_points.headD [])))).map
            (fun pc => offsetRecords pc.2 pc.1)).flatten) = _
        rw [numRecords, hrs, Option.getD_some, hrslen,
          sum_numRecords_zip _ _ hofflen, List.map_map, List.map_map]
        congr 1
        refine List.map_congr_left ?_
        intro m hm
        exact (precombined_inds m (hgood m hm)).2.2
    · show ((d :: d2 :: rest).map precombined).flatMap (fun c => c.children) = _
      exact flatMap_precombined_children (d :: d2 :: rest)
  · -- the reduction-pass part
    intro children rl hlen hred
    unfold reduce_components_step at hred
    rw [if_pos hlen] at hred
    have h₂ := mapME_ok_forall₂ _ _ _ hred
    refine h₂.imp ?_
    intro nm r hf
    dsimp only at hf
    by_cases hgl : (children.filter (fun c => decide (c.name = nm))).length > 1
    · rw [if_pos hgl] at hf
      exact ⟨fun _ => hf, fun hle => absurd hgl (by omega)⟩
    · rw [if_neg hgl] at hf
      constructor
      · intro hgt
        exact absurd hgt hgl
      · intro _
        cases hg : children.filter (fun c => decide (c.name = nm)) with
        | nil =>
          rw [hg] at hf
          cases hf
        | cons x t =>
          rw [hg] at hf
          cases t with
          | nil =>
            cases hf
            rfl
          | cons y u =>
            rw [hg] at hgl
            simp at hgl

/-- Witness for C9: two identical same-named two-point siblings. -/
theorem C9_witness :
    (∃ r, combine_dicts [sampleHComp, sampleHComp] = .ok r ∧
      r.name = sampleHComp.name ∧ r.shape = sampleHComp.shape ∧
      r.visible = sampleHComp.visible ∧ r.is_dot = sampleHComp.is_dot ∧
      (∃ bigP bigC bigS, r.mesh_points = [bigP] ∧ r.mesh_inds = [bigC] ∧
        r.scalars = [bigS] ∧
        bigP.length =
          (([sampleHComp, sampleHComp] : List (HComp Nat Nat)).map
            pointsTotal).sum ∧
        numRecords bigC =
          (([sampleHComp, sampleHComp] : List (HComp Nat Nat)).map
            recordsTotal).sum) ∧
      r.children = ([sampleHComp, sampleHComp] :
        List (HComp Nat Nat)).flatMap HComp.children) ∧
    (∀ (children rl : List (HComp Nat Nat)), children.length > 1 →
      reduce_components_step children = .ok rl →
      List.Forall₂ (fun nm r =>
        ((children.filter (fun c => decide (c.name = nm))).length > 1 →
          combine_dicts (children.filter (fun c => decide (c.name = nm))) =
            .ok r) ∧
        ((children.filter (fun c => decide (c.name = nm))).length ≤ 1 →
          children.filter (fun c => decide (c.name = nm)) = [r]))
        (collectNames children) rl) :=
  C9_sibling_reduction sampleHComp sampleHComp [] (by decide)

theorem mem_insertSorted (x a : Nat) :
    ∀ (l : List Nat), a ∈ insertSorted x l ↔ a = x ∨ a ∈ l := by
  intro l
  induction l with
  | nil => simp [insertSorted]
  | cons y ys ih =>
    simp only [insertSorted]
    by_cases hxy : x ≤ y
    · rw [if_pos hxy]
      simp
    · rw [if_neg hxy]
      simp only [List.mem_cons, ih]
      tauto

theorem mem_sortNat (a : Nat) :
    ∀ (l : List Nat), a ∈ sortNat l ↔ a ∈ l := by
  intro l
  induction l with
  | nil => simp [sortNat]
  | cons x t ih =>
    show a ∈ insertSorted x (sortNat t) ↔ _
    rw [mem_insertSorted]
    simp [ih]

/-- C10: when none of the `n_samples` points drawn in the first mesh's
bounding box is enclosed by the first mesh's volume (`n_surviving = 0`),
`get_overlap` raises a `ZeroDivisionError` computing the overlap fraction
instead of returning a result — the division is unguarded. -/
theorem C10_get_overlap_zero_division {M Pt : Type} (O : GeoOracle M Pt)
    (m1 m2 : M)
    (h : ((O.samples m1 m2).filter (fun p => O.enclosed p m1)).length = 0) :
    get_overlap O m1 m2 = .error .zeroDivision := by
  simp [get_overlap, h]

/-- Witness for C10 with an oracle whose enclosed-point test rejects every
sample. -/
theorem C10_witness :
    get_overlap openOracle 1 2 = Except.error PyError.zeroDivision :=
  C10_get_overlap_zero_division openOracle 1 2 (by decide)

/-- C2: in `find_overlaps`, for every eligible pair that reaches the
narrow-phase sampling stage, the overlap fraction is the final filtered
point count divided by the number of samples enclosed by the first mesh's
volume; the pair is flagged exactly when the filtered point count exceeds
`n_samples * tolerance`, in which case both ids are appended, the filtered
points are stored as a witness cloud and the pair is reported with the
overlap percentage; and the value `find_overlaps` returns is the
de-duplicated (sorted) set of all flagged ids. -/
theorem C2_find_overlaps_contract {M Pt : Type} :
    (∀ (O : GeoOracle M Pt) (m1 m2 : M) (pts : List Pt) (frac : ℚ),
      get_overlap O m1 m2 = .ok (pts, frac) →
      pts = (((O.samples m1 m2).filter (fun p => O.enclosed p m1)).filter
        (fun p => O.enclosed p m2)).filter (fun p => O.distOK p m2) ∧
      frac = (pts.length : ℚ) /
        (((O.samples m1 m2).filter (fun p => O.enclosed p m1)).length : ℚ)) ∧
    (∀ (O : GeoOracle M Pt) (tol : ℚ) (ns : Nat) (c1 c2 : Component M)
      (st : DetectorState Pt) (m1₀ m2₀ : M) (pts : List Pt) (frac : ℚ),
      c1.mesh = some m1₀ → c2.mesh = some m2₀ →
      is_mesh_inside (O.bounds (tri O m1₀)) (O.bounds (tri O m2₀)) = false →
      is_mesh_inside (O.bounds (tri O m2₀)) (O.bounds (tri O m1₀)) = false →
      do_bounds_overlap (O.bounds (tri O m1₀)) (O.bounds (tri O m2₀)) = true →
      O.nOpenEdges (tri O m1₀) = 0 → O.nOpenEdges (tri O m2₀) = 0 →
      get_overlap O (tri O m1₀) (tri O m2₀) = .ok (pts, frac) →
      pairBody O tol ns c1 c2 st = .ok
        (if (pts.length : ℚ) > ns * tol then
          { st with overlapping := st.overlapping ++ [c1.id, c2.id],
                    witnesses := st.witnesses ++ [pts],
                    log := st.log ++
                      [Msg.overlapWarning c1.name c2.name (100 * frac)] }
         else st)) ∧
    (∀ (O : GeoOracle M Pt) (tol : ℚ) (ns : Nat)
      (comps : List (Component M)) (ids : List Nat) (st : DetectorState Pt),
      find_overlaps O tol ns comps = .ok (ids, st) →
      ids = uniqueSorted st.overlapping ∧ ids.Nodup ∧
      (∀ x, x ∈ ids ↔ x ∈ st.overlapping)) := by
  refine ⟨?_, ?_, ?_⟩
  · intro O m1 m2 pts frac h
    unfold get_overlap at h
    simp only [] at h
    split at h
    · cases h
    · cases h
      exact ⟨rfl, rfl⟩
  · intro O tol ns c1 c2 st m1₀ m2₀ pts frac hm1 hm2 hi1 hi2 hbo ho1 ho2 hg
    simp only [pairBody, hm1, hm2]
    simp [hi1, hi2, hbo, ho1, ho2, hg, exbind_ok]
    split <;> rfl
  · intro O tol ns comps ids st h
    unfold find_overlaps at h
    cases hrec : find_overlaps_recursive O tol ns comps comps 0
      { checked := [], overlapping := [], witnesses := [], log := [] } with
    | error e =>
      rw [hrec] at h
      cases h
    | ok st' =>
      rw [hrec, exbind_ok] at h
      cases h
      refine ⟨rfl, List.nodup_dedup _, ?_⟩
      intro x
      rw [uniqueSorted, List.mem_dedup, mem_sortNat]

/-- Witness for C2: the fraction and filter conjunct and the flagging
conjunct at a concrete all-enclosing oracle, and the dedup conjunct on the
empty forest. -/
theorem C2_witness :
    (([0, 1, 2] : List Nat) =
      (((fullOracle.samples 1 2).filter (fun p => fullOracle.enclosed p 1)).filter
        (fun p => fullOracle.enclosed p 2)).filter
        (fun p => fullOracle.distOK p 2) ∧
     (1 : ℚ) = ((([0, 1, 2] : List Nat).length : ℚ) /
        (((fullOracle.samples 1 2).filter
          (fun p => fullOracle.enclosed p 1)).length : ℚ))) ∧
    pairBody fullOracle 0 1 compA compB ⟨[], [], [], []⟩ = .ok
      (if ((([0, 1, 2] : List Nat).length : ℚ) > (1 : Nat) * (0 : ℚ)) then
        { (⟨[], [], [], []⟩ : DetectorState Nat) with
          overlapping := ([] : List Nat) ++ [compA.id, compB.id],
          witnesses := ([] : List (List Nat)) ++ [[0, 1, 2]],
          log := ([] : List Msg) ++
            [Msg.overlapWarning compA.name compB.name (100 * 1)] }
       else ⟨[], [], [], []⟩) ∧
    (([] : List Nat) = uniqueSorted
        (⟨[], [], [], []⟩ : DetectorState Nat).overlapping ∧
      ([] : List Nat).Nodup ∧
      (∀ x, x ∈ ([] : List Nat) ↔
        x ∈ (⟨[], [], [], []⟩ : DetectorState Nat).overlapping)) := by
  refine ⟨?_, ?_, ?_⟩
  · exact (@C2_find_overlaps_contract Nat Nat).1 fullOracle 1 2
      [0, 1, 2] 1 (by norm_num [get_overlap, fullOracle])
  · exact (@C2_find_overlaps_contract Nat Nat).2.1 fullOracle 0 1
      compA compB ⟨[], [], [], []⟩ 1 2 [0, 1, 2] 1 rfl rfl (by decide) (by decide)
      (by decide) (by decide) (by decide)
      (by norm_num [get_overlap, fullOracle, tri])
  · exact (@C2_find_overlaps_contract Nat Nat).2.2 fullOracle 0 1
      [] [] ⟨[], [], [], []⟩ (by simp [find_overlaps, find_overlaps_recursive,
        uniqueSorted, sortNat, exbind_ok])

/-- C3 counterexample: both meshes of the pair have open edges (three
each), the pair is skipped, but the emitted warning names only the first
component — no message reports the second component's open-edge count, so
the warning does not name all open components. -/
theorem C3_counterexample :
    pairBody openOracle 1 1 compA compB ⟨[], [], [], []⟩ =
      Except.ok ⟨[], [], [],
        [Msg.unableToCheck "A" "B", Msg.openEdges "A" 3]⟩ ∧
    openOracle.nOpenEdges (tri openOracle 1) = 3 ∧
    openOracle.nOpenEdges (tri openOracle 2) = 3 ∧
    (∀ k : Nat, Msg.openEdges "B" k ∉
      ([Msg.unableToCheck "A" "B", Msg.openEdges "A" 3] : List Msg)) := by
  refine ⟨rfl, rfl, rfl, ?_⟩
  intro k
  simp

/-- C3 amended: when a pair that passed the containment and bounding-box
checks has open edges on either triangulated mesh, the pair is skipped —
the flagged-id list and witness list are unchanged — and a warning names
the pair and then exactly one open component with its open-edge count: the
first component if its mesh has open edges, otherwise the second. -/
theorem C3_open_edges_skip {M Pt : Type} (O : GeoOracle M Pt) (tol : ℚ)
    (ns : Nat) (c1 c2 : Component M) (st : DetectorState Pt) (m1₀ m2₀ : M)
    (hm1 : c1.mesh = some m1₀) (hm2 : c2.mesh = some m2₀)
    (hi1 : is_mesh_inside (O.bounds (tri O m1₀)) (O.bounds (tri O m2₀)) = false)
    (hi2 : is_mesh_inside (O.bounds (tri O m2₀)) (O.bounds (tri O m1₀)) = false)
    (hbo : do_bounds_overlap (O.bounds (tri O m1₀)) (O.bounds (tri O m2₀)) = true)
    (hopen : O.nOpenEdges (tri O m1₀) + O.nOpenEdges (tri O m2₀) > 0) :
    pairBody O tol ns c1 c2 st = .ok
      { st with log := st.log ++
        [Msg.unableToCheck c1.name c2.name,
         if O.nOpenEdges (tri O m1₀) > 0 then
           Msg.openEdges c1.name (O.nOpenEdges (tri O m1₀))
         else Msg.openEdges c2.name (O.nOpenEdges (tri O m2₀))] } := by
  simp only [pairBody, hm1, hm2]
  simp [hi1, hi2, hbo, hopen]

/-- Witness for the amended C3 at the concrete open-edged pair. -/
theorem C3_amended_witness :
    pairBody openOracle 1 1 compA compB ⟨[], [], [], []⟩ = Except.ok
      { (⟨[], [], [], []⟩ : DetectorState Nat) with
        log := ([] : List Msg) ++
          [Msg.unableToCheck compA.name compB.name,
           if openOracle.nOpenEdges (tri openOracle 1) > 0 then
             Msg.openEdges compA.name (openOracle.nOpenEdges (tri openOracle 1))
           else
             Msg.openEdges compB.name
               (openOracle.nOpenEdges (tri openOracle 2))] } :=
  C3_open_edges_skip openOracle 1 1 compA compB ⟨[], [], [], []⟩ 1 2
    rfl rfl (by decide) (by decide) (by decide) (by decide)

end GeViewer
